import Mathlib

/-!
# Verification of `src/frontend/scripts/generate_world_rank_calibration.py`

A shallow embedding of the world-rank calibration pipeline: 20-point
Gauss-Hermite quadrature, 2PL item calibration (discrimination heuristic and
bisection for difficulty), Newton-Raphson MAP ability estimation, population
simulation over an explicit pseudo-random stream, and the percentile→theta
quantile table.  Machine floating-point values are embedded as the exact
rational values of the source's decimal literals, and float-valued arithmetic
is embedded as real arithmetic, except where a claim is specifically about
IEEE binary64 behaviour, where a `Rat`-valued round-to-nearest-even model of
binary64 rounding in the normal range is used.
-/

namespace WorldRankCalibration

noncomputable section
open scoped Classical

/-- The 20 Gauss-Hermite nodes from the script (`HERMITE_X`), embedded as the
exact values of the decimal literals. -/
def HERMITE_X : List ℝ :=
  [-5.387480890011232, -4.603682449550744, -3.944764040115625,
   -3.347854567383216, -2.78880605842813, -2.254974002089275,
   -1.738537712116585, -1.234076215395323, -0.737473728545394,
   -0.245340708300901, 0.245340708300901, 0.737473728545394,
   1.234076215395323, 1.738537712116585, 2.254974002089275,
   2.78880605842813, 3.347854567383216, 3.944764040115625,
   4.603682449550744, 5.387480890011232]

/-- The 20 Gauss-Hermite weights from the script (`HERMITE_W`). -/
def HERMITE_W : List ℝ :=
  [2.229393645534151e-13, 4.39934099227318e-10, 1.086069370769281e-07,
   7.802556478532063e-06, 0.000228338636016353, 0.003243773342237861,
   0.02481052088746359, 0.109017206020023, 0.2866755053628341,
   0.4622436696006101, 0.4622436696006101, 0.2866755053628341,
   0.109017206020023, 0.02481052088746359, 0.003243773342237861,
   0.000228338636016353, 7.802556478532063e-06, 1.086069370769281e-07,
   4.39934099227318e-10, 2.229393645534151e-13]

/-- `sigmoid(x) = 1/(1 + exp(-x))` (line 72). -/
def sigmoid (x : ℝ) : ℝ := 1 / (1 + Real.exp (-x))

/-- `clamp(value, low, high) = min(high, max(low, value))` (line 76). -/
def clamp (value low high : ℝ) : ℝ := min high (max low value)

/-- `logit(p) = log(p / (1 - p))` (line 80), as a total real function; the
fallible version used by the pipeline is `logitE`. -/
def logit (p : ℝ) : ℝ := Real.log (p / (1 - p))

/-- `expect_sigmoid(a, b)`: the 20-point Gauss-Hermite estimate of
`E[sigmoid(a*(theta-b))]` for `theta ~ N(0,1)` (lines 84-91): the loop
`total += w * sigmoid(a * (sqrt2 * x - b))` over `zip(HERMITE_X, HERMITE_W)`,
divided by `sqrt(pi)`. -/
def expect_sigmoid (a b : ℝ) : ℝ :=
  ((HERMITE_X.zip HERMITE_W).map
    (fun xw => xw.2 * sigmoid (a * (Real.sqrt 2 * xw.1 - b)))).sum / Real.sqrt Real.pi

/-- One bisection step of `solve_difficulty` (lines 96-102): compute the
midpoint; if `expect_sigmoid a mid > p` move `lo` up, else move `hi` down. -/
def bisectStep (p a : ℝ) (s : ℝ × ℝ) : ℝ × ℝ :=
  let mid := (s.1 + s.2) / 2
  if p < expect_sigmoid a mid then (mid, s.2) else (s.1, mid)

/-- `solve_difficulty(p, a)` (lines 94-103): 80 bisection steps on the
bracket `[-10, 10]`, returning the final midpoint. -/
def solve_difficulty (p a : ℝ) : ℝ :=
  let s := (bisectStep p a)^[80] (-10, 10)
  (s.1 + s.2) / 2

/-- The inner loop body of `estimate_theta_map` (lines 113-118): starting
from `grad = -theta`, `hess = -1.0`, accumulate
`grad += a*((1 if y else 0) - p)` and `hess += -(a*a)*p*(1-p)` over
`zip(answers, difficulties, discriminations)`.  Returns `(grad, hess)`. -/
def newtonUpdate (answers : List Bool) (difficulties discriminations : List ℝ)
    (theta : ℝ) : ℝ × ℝ :=
  (answers.zip (difficulties.zip discriminations)).foldl
    (fun gh yba =>
      let p := sigmoid (yba.2.2 * (theta - yba.2.1))
      (gh.1 + yba.2.2 * ((if yba.1 then (1 : ℝ) else 0) - p),
       gh.2 + (-(yba.2.2 * yba.2.2) * p * (1 - p))))
    (-theta, -1)

/-- The Newton-Raphson loop of `estimate_theta_map` (lines 112-122) with
explicit fuel: `step = grad/hess`, `theta -= step`, and break once
`|step| < 1e-8`.  In the script the fuel is 40 (`range(40)`). -/
def newtonGo (answers : List Bool) (difficulties discriminations : List ℝ) :
    ℕ → ℝ → ℝ
  | 0, theta => theta
  | n + 1, theta =>
    let gh := newtonUpdate answers difficulties discriminations theta
    let step := gh.1 / gh.2
    let theta' := theta - step
    if |step| < 1e-8 then theta' else
      newtonGo answers difficulties discriminations n theta'

/-- `estimate_theta_map(answers, difficulties, discriminations)`
(lines 106-123): returns 0 on an empty answer list, else runs the Newton
loop from `theta = 0`. -/
def estimate_theta_map (answers : List Bool)
    (difficulties discriminations : List ℝ) : ℝ :=
  if answers = [] then 0 else newtonGo answers difficulties discriminations 40 0

/-- The first Newton update of `estimate_theta_map` from its starting point
`theta = 0`: one pass of lines 113-120, `0 - grad/hess` evaluated at 0. -/
def theta1 (answers : List Bool) (difficulties discriminations : List ℝ) : ℝ :=
  0 - (newtonUpdate answers difficulties discriminations 0).1 /
    (newtonUpdate answers difficulties discriminations 0).2

/-- Python exception outcomes reachable from the script's core:
`SystemExit("No question probabilities found.")` (line 148), `ValueError`
from `math.log`/`math.sqrt` on a domain error, and `ZeroDivisionError` from
`p / (1.0 - p)` at `p = 1`. -/
inductive PyErr
  | systemExit
  | valueError
  | zeroDivision

/-- Fallible `logit` as the pipeline executes it (line 80-81): `p/(1.0-p)`
raises `ZeroDivisionError` at `p = 1`, and `math.log` raises `ValueError` on
a non-positive argument. -/
def logitE (p : ℝ) : Except PyErr ℝ :=
  if p = 1 then .error .zeroDivision
  else if p / (1 - p) ≤ 0 then .error .valueError
  else .ok (Real.log (p / (1 - p)))

/-- The discrimination list comprehension (line 153):
`[clamp(0.75 + 0.5*abs(logit(p)), 0.75, 2.25) for p in probabilities]`,
with `logit`'s possible exceptions propagated: the comprehension evaluates
left to right and aborts at the first raising element. -/
def discriminationsE : List ℝ → Except PyErr (List ℝ)
  | [] => .ok []
  | p :: ps => do
    let l ← logitE p
    let rest ← discriminationsE ps
    .ok (clamp (0.75 + 0.5 * |l|) 0.75 2.25 :: rest)

/-- `randn(rng)` (lines 126-130), Box-Muller over two uniform draws:
`math.log` raises `ValueError` for `u1 <= 0` and `math.sqrt` raises
`ValueError` on a negative argument. -/
def randn (u1 u2 : ℝ) : Except PyErr ℝ :=
  if u1 ≤ 0 then .error .valueError
  else if -2 * Real.log u1 < 0 then .error .valueError
  else .ok (Real.sqrt (-2 * Real.log u1) * Real.cos (2 * Real.pi * u2))

/-- `seed = 4242` (line 157). -/
def seed : ℕ := 4242

/-- `population_size = 200_000` (line 158). -/
def population_size : ℕ := 200000

/-- The simulation loop (lines 162-168) over an explicit uniform stream
`u : ℕ → ℝ` consumed sequentially starting at index `base`: each respondent
consumes two draws for `randn` and then one draw per item for the Bernoulli
comparisons `rng.random() < sigmoid(a*(theta-b))`. -/
def simulateFrom (u : ℕ → ℝ) (difficulties discriminations : List ℝ) :
    ℕ → ℕ → Except PyErr (List ℝ)
  | _, 0 => .ok []
  | base, n + 1 => do
    let theta ← randn (u base) (u (base + 1))
    let answers := (difficulties.zip discriminations).mapIdx
      (fun k ba => if u (base + 2 + k) < sigmoid (ba.2 * (theta - ba.1))
        then true else false)
    let rest ← simulateFrom u difficulties discriminations
      (base + 2 + (difficulties.zip discriminations).length) n
    .ok (estimate_theta_map answers difficulties discriminations :: rest)

/-- Python `list.sort()`: ascending merge sort. -/
def sortReals (l : List ℝ) : List ℝ := l.mergeSort (fun a b => decide (a ≤ b))

/-- `quantile_step = 0.1` (line 173), kept rational so the step count is
computable. -/
def quantile_step : ℚ := 0.1

/-- `steps = int(round(100 / quantile_step))` (line 174).  (In IEEE
binary64 arithmetic `100 / 0.1` is exactly `1000.0`, so exact rational
arithmetic and every rounding convention agree here.) -/
def stepsCount : ℕ := (round ((100 : ℚ) / quantile_step)).toNat

/-- One quantile-table entry (lines 179-186): `lo = floor(idx)`,
`hi = ceil(idx)`; take `xs[lo]` when `lo == hi`, else interpolate
`xs[lo]*(1-frac) + xs[hi]*frac` with `frac = idx - lo`. -/
def quantileAt (xs : List ℝ) (idx : ℝ) : ℝ :=
  if ⌊idx⌋ = ⌈idx⌉ then xs.getD (⌊idx⌋).toNat 0
  else
    xs.getD (⌊idx⌋).toNat 0 * (1 - (idx - ⌊idx⌋)) +
      xs.getD (⌈idx⌉).toNat 0 * (idx - ⌊idx⌋)

/-- The quantile-table loop (lines 176-186): for `i in range(steps + 1)`,
`p = i * quantile_step / 100.0`, `idx = p * (n - 1)`, and the interpolated
entry; `n` is `population_size` at the call site, the length of the sorted
estimate list. -/
def buildQuantiles (n : ℕ) (xs : List ℝ) : List ℝ :=
  (List.range (stepsCount + 1)).map
    (fun (i : ℕ) =>
      quantileAt xs (((i : ℝ) * (quantile_step : ℝ) / 100) * ((n : ℝ) - 1)))

/-- The serialized output record `WORLD_RANK_CALIBRATION` (lines 188-203). -/
structure Calibration where
  version : String
  generatedAt : String
  seed : ℕ
  populationSize : ℕ
  quantileStep : ℚ
  questionIds : List String
  probabilities : List ℝ
  discriminations : List ℝ
  difficulties : List ℝ
  thetaQuantiles : List ℝ

/-- The core of `main` (lines 141-203) from the parsed `(id, probability)`
pairs onward, over the seed-indexed uniform stream `mt` standing for
`random.Random(seed)` and the ambient date string `todayStr` standing for
`date.today().isoformat()`.  File reading, regex parsing and output writing
are the out-of-scope collaborators. -/
def mainCore (mt : ℕ → ℕ → ℝ) (todayStr : String)
    (pairs : List (String × ℝ)) : Except PyErr Calibration :=
  if pairs = [] then .error .systemExit
  else do
    let question_ids := pairs.map Prod.fst
    let probabilities := pairs.map Prod.snd
    let discriminations ← discriminationsE probabilities
    let difficulties := (probabilities.zip discriminations).map
      (fun pa => solve_difficulty pa.1 pa.2)
    let theta_hats ← simulateFrom (mt WorldRankCalibration.seed)
      difficulties discriminations 0 population_size
    let sorted := sortReals theta_hats
    .ok
      { version := "v4-2pl-empirical-cdf"
        generatedAt := todayStr
        seed := WorldRankCalibration.seed
        populationSize := population_size
        quantileStep := quantile_step
        questionIds := question_ids
        probabilities := probabilities
        discriminations := discriminations
        difficulties := difficulties
        thetaQuantiles := buildQuantiles population_size sorted }

/-! ## A rational model of IEEE binary64 rounding for the index computation

Claim C9 is specifically about IEEE double arithmetic in the quantile loop,
so for it we model binary64 round-to-nearest-even on nonnegative values in
the normal range (no overflow, no subnormals arise in the index chain). -/

/-- Round a rational to the nearest integer, ties to even. -/
def rhe (x : ℚ) : ℤ :=
  if x - ⌊x⌋ < 1 / 2 then ⌊x⌋
  else if 1 / 2 < x - ⌊x⌋ then ⌊x⌋ + 1
  else if ⌊x⌋ % 2 = 0 then ⌊x⌋ else ⌊x⌋ + 1

/-- Binary64 round-to-nearest-even of a nonnegative rational in the normal
range: scale into `[2^52, 2^53)`, round the mantissa half-to-even, and scale
back.  (Nonpositive inputs, which the index chain never produces except the
exact 0, map to 0.) -/
def fl (q : ℚ) : ℚ :=
  if q ≤ 0 then 0
  else (rhe (q * 2 ^ (52 - Int.log 2 q)) : ℚ) * 2 ^ (Int.log 2 q - 52)

/-- The binary64 value of the literal `0.1`:
`0x1.999999999999ap-4 = 3602879701896397 / 2^55`. -/
def flTenth : ℚ := 3602879701896397 / 2 ^ 55

/-- The binary64 value of `p = i * quantile_step / 100.0` (line 177). -/
def flP (i : ℕ) : ℚ := fl (fl ((i : ℚ) * flTenth) / 100)

/-- The binary64 value of `idx = p * (population_size - 1)` (line 178). -/
def flIdx (i : ℕ) : ℚ := fl (flP i * 199999)

end

/-! ## Basic facts about `sigmoid` -/

theorem sigmoid_pos (x : ℝ) : 0 < sigmoid x := by
  unfold sigmoid; positivity

theorem sigmoid_lt_one (x : ℝ) : sigmoid x < 1 := by
  unfold sigmoid
  rw [div_lt_one (by positivity)]
  linarith [Real.exp_pos (-x)]

theorem sigmoid_strictMono {x y : ℝ} (h : x < y) : sigmoid x < sigmoid y := by
  unfold sigmoid
  exact one_div_lt_one_div_of_lt (by positivity)
    (by linarith [Real.exp_lt_exp.mpr (neg_lt_neg h)])

theorem sigmoid_mono {x y : ℝ} (h : x ≤ y) : sigmoid x ≤ sigmoid y := by
  rcases eq_or_lt_of_le h with rfl | h
  · exact le_refl _
  · exact (sigmoid_strictMono h).le

/-- All 20 quadrature weights are positive. -/
theorem mem_nodes_weight_pos :
    ∀ xw ∈ HERMITE_X.zip HERMITE_W, (0 : ℝ) < xw.2 := by
  intro xw h
  simp only [HERMITE_X, HERMITE_W, List.zip_cons_cons, List.zip_nil_right,
    List.mem_cons, List.not_mem_nil, or_false] at h
  rcases h with rfl | rfl | rfl | rfl | rfl | rfl | rfl | rfl | rfl | rfl | rfl |
    rfl | rfl | rfl | rfl | rfl | rfl | rfl | rfl | rfl <;> norm_num

/-! ## C6: the curvature accumulator is at most `-1` -/

/-- The `hess` accumulator of the Newton loop only decreases along the fold. -/
theorem newton_fold_snd_le (theta : ℝ) (l : List (Bool × ℝ × ℝ)) :
    ∀ init : ℝ × ℝ,
      (l.foldl
        (fun gh yba =>
          let p := sigmoid (yba.2.2 * (theta - yba.2.1))
          (gh.1 + yba.2.2 * ((if yba.1 then (1 : ℝ) else 0) - p),
           gh.2 + (-(yba.2.2 * yba.2.2) * p * (1 - p)))) init).2 ≤ init.2 := by
  induction l with
  | nil => intro init; exact le_refl _
  | cons yba l ih =>
    intro init
    rw [List.foldl_cons]
    refine le_trans (ih _) ?_
    have hp := sigmoid_pos (yba.2.2 * (theta - yba.2.1))
    have hp1 := sigmoid_lt_one (yba.2.2 * (theta - yba.2.1))
    have hsq := mul_self_nonneg yba.2.2
    have hterm : 0 ≤ yba.2.2 * yba.2.2 * sigmoid (yba.2.2 * (theta - yba.2.1)) *
        (1 - sigmoid (yba.2.2 * (theta - yba.2.1))) :=
      mul_nonneg (mul_nonneg hsq hp.le) (by linarith)
    simp only
    linarith

/-- C6: in every Newton-Raphson iteration of `estimate_theta_map`, for every
`theta` reached and every input, the curvature accumulator `hess` computed by
the loop body is at most `-1` (it starts at `-1.0` and accumulates only
non-positive terms `-(a*a)*p*(1-p)`), hence is nonzero and the division
`grad / hess` never divides by zero. -/
theorem hess_le_neg_one (answers : List Bool)
    (difficulties discriminations : List ℝ) (theta : ℝ) :
    (newtonUpdate answers difficulties discriminations theta).2 ≤ -1 ∧
      (newtonUpdate answers difficulties discriminations theta).2 ≠ 0 := by
  have h : (newtonUpdate answers difficulties discriminations theta).2 ≤ -1 := by
    unfold newtonUpdate
    exact newton_fold_snd_le theta _ (-theta, -1)
  exact ⟨h, by intro h0; rw [h0] at h; linarith⟩

/-! ## C10: totality of `randn` on valid uniform draws -/

/-- C10: `randn` succeeds (returns a real number) whenever the first uniform
draw is strictly positive (uniform draws lie in `[0,1)`), while at `u1 = 0` —
which `random.random()` can produce — `math.log(0.0)` raises `ValueError`. -/
theorem randn_total_on_pos (u1 u2 : ℝ) (h0 : 0 < u1) (h1 : u1 < 1) :
    (∃ r, randn u1 u2 = .ok r) ∧ randn 0 u2 = .error .valueError := by
  constructor
  · refine ⟨Real.sqrt (-2 * Real.log u1) * Real.cos (2 * Real.pi * u2), ?_⟩
    have hlog : Real.log u1 < 0 := Real.log_neg h0 h1
    rw [randn, if_neg (not_le.mpr h0), if_neg (by intro h; nlinarith)]
  · rw [randn, if_pos (le_refl 0)]

/-- Witness for C10 at `u1 = 1/2`, `u2 = 0`. -/
theorem randn_total_on_pos_witness :
    (∃ r, randn (1/2) 0 = .ok r) ∧ randn 0 0 = .error .valueError :=
  randn_total_on_pos (1/2) 0 (by norm_num) (by norm_num)

/-! ## C4: strict antitonicity of `expect_sigmoid` in `b` -/

/-- C4: for fixed discrimination `a > 0`, the quadrature estimate
`expect_sigmoid a b` is strictly decreasing in the difficulty `b`. -/
theorem expect_sigmoid_strictAnti (a : ℝ) (ha : 0 < a) {b1 b2 : ℝ}
    (h : b1 < b2) : expect_sigmoid a b2 < expect_sigmoid a b1 := by
  unfold expect_sigmoid
  rw [div_lt_div_iff_of_pos_right (Real.sqrt_pos.mpr Real.pi_pos)]
  refine List.sum_lt_sum _ _ ?_ ?_
  · intro xw hxw
    refine mul_le_mul_of_nonneg_left ?_ (mem_nodes_weight_pos xw hxw).le
    refine sigmoid_mono ?_
    have : Real.sqrt 2 * xw.1 - b2 ≤ Real.sqrt 2 * xw.1 - b1 := by linarith
    exact mul_le_mul_of_nonneg_left this ha.le
  · refine ⟨(-5.387480890011232, 2.229393645534151e-13), ?_, ?_⟩
    · simp [HERMITE_X, HERMITE_W]
    · refine mul_lt_mul_of_pos_left ?_ (by norm_num)
      refine sigmoid_strictMono ?_
      have : Real.sqrt 2 * (-5.387480890011232 : ℝ) - b2
          < Real.sqrt 2 * (-5.387480890011232 : ℝ) - b1 := by linarith
      exact mul_lt_mul_of_pos_left this ha

/-- Witness for C4 at `a = 1`, `b1 = 0`, `b2 = 1`. -/
theorem expect_sigmoid_strictAnti_witness :
    expect_sigmoid 1 1 < expect_sigmoid 1 0 :=
  expect_sigmoid_strictAnti 1 (by norm_num) (by norm_num)

/-! ## C3: determinism of the pipeline -/

/-- C3: the pipeline is a pure function of the uniform stream (determined by
the seed), the parsed item list and the configuration constants: two runs
with identical `(seed, populationSize, itemProbabilities, quantileStep)` —
even on different days, so with different `generatedAt` stamps — produce
identical discrimination, difficulty and theta-quantile tables. -/
theorem mainCore_deterministic (mt : ℕ → ℕ → ℝ) (pairs : List (String × ℝ))
    (d1 d2 : String) :
    (mainCore mt d1 pairs).map Calibration.discriminations
        = (mainCore mt d2 pairs).map Calibration.discriminations ∧
      (mainCore mt d1 pairs).map Calibration.difficulties
        = (mainCore mt d2 pairs).map Calibration.difficulties ∧
      (mainCore mt d1 pairs).map Calibration.thetaQuantiles
        = (mainCore mt d2 pairs).map Calibration.thetaQuantiles := by
  by_cases hp : pairs = []
  · simp [mainCore, hp]
  · simp only [mainCore, if_neg hp]
    rcases hd : discriminationsE (pairs.map Prod.snd) with e | ds
    · simp [hd, Except.map, Except.bind, bind]
    · rcases hs : simulateFrom (mt WorldRankCalibration.seed)
          (((pairs.map Prod.snd).zip ds).map (fun pa => solve_difficulty pa.1 pa.2))
          ds 0 population_size with e | th
      · simp [hd, hs, Except.map, Except.bind, bind]
      · simp [hd, hs, Except.map, Except.bind, bind]

/-! ## C8: shape of the quantile table -/

/-- C8: the produced `thetaQuantiles` table has exactly
`⌊100 / quantileStep⌋ + 1` entries; for the configured `quantile_step = 0.1`
that is 1001 entries, and entry `i` is the interpolated value at percentile
`i * quantileStep` (fractional rank `(i * quantileStep / 100) * (n - 1)`). -/
theorem buildQuantiles_shape (n : ℕ) (xs : List ℝ) :
    (buildQuantiles n xs).length = 1001 ∧
      (1001 : ℤ) = ⌊(100 : ℚ) / quantile_step⌋ + 1 ∧
      ∀ i : ℕ, i ≤ 1000 →
        (buildQuantiles n xs).getD i 0 =
          quantileAt xs (((i : ℝ) * (quantile_step : ℝ) / 100) * ((n : ℝ) - 1)) := by
  have hsc : stepsCount = 1000 := by
    have h100 : (100 : ℚ) / quantile_step = ((1000 : ℤ) : ℚ) := by
      norm_num [quantile_step]
    rw [stepsCount, h100, round_intCast]
    rfl
  refine ⟨?_, ?_, ?_⟩
  · rw [buildQuantiles, List.length_map, List.length_range, hsc]
  · norm_num [quantile_step]
  · intro i hi
    have hlt : i < 1000 + 1 := by omega
    simp only [buildQuantiles, hsc, List.getD_eq_getElem?_getD,
      List.getElem?_map, List.getElem?_range, hlt, if_true]
    rfl

/-! ## C7: monotonicity of the interpolated quantile table -/

/-- `stepsCount` evaluates to 1000. -/
theorem stepsCount_eq : stepsCount = 1000 := by
  have h100 : (100 : ℚ) / quantile_step = ((1000 : ℤ) : ℚ) := by
    norm_num [quantile_step]
  rw [stepsCount, h100, round_intCast]
  rfl

/-- Indexing a sorted list is monotone. -/
theorem sorted_getD_mono {xs : List ℝ} (hs : xs.Sorted (· ≤ ·)) {i j : ℕ}
    (hij : i ≤ j) (hj : j < xs.length) : xs.getD i 0 ≤ xs.getD j 0 := by
  have hi : i < xs.length := lt_of_le_of_lt hij hj
  rw [List.getD_eq_getElem?_getD, List.getElem?_eq_getElem hi,
    List.getD_eq_getElem?_getD, List.getElem?_eq_getElem hj]
  simp only [Option.getD_some]
  exact hs.rel_get_of_le (show (⟨i, hi⟩ : Fin xs.length) ≤ ⟨j, hj⟩ from hij)

/-- The interpolated value at `idx` lies between the order statistics at
`⌊idx⌋` and `⌈idx⌉`. -/
theorem quantileAt_between {xs : List ℝ} (hs : xs.Sorted (· ≤ ·)) {idx : ℝ}
    (hub : (⌈idx⌉).toNat < xs.length) :
    xs.getD (⌊idx⌋).toNat 0 ≤ quantileAt xs idx ∧
      quantileAt xs idx ≤ xs.getD (⌈idx⌉).toNat 0 := by
  unfold quantileAt
  by_cases h : ⌊idx⌋ = ⌈idx⌉
  · rw [if_pos h, h]
    exact ⟨le_refl _, le_refl _⟩
  · rw [if_neg h]
    have hAB : xs.getD (⌊idx⌋).toNat 0 ≤ xs.getD (⌈idx⌉).toNat 0 :=
      sorted_getD_mono hs (Int.toNat_le_toNat (Int.floor_le_ceil idx)) hub
    have hf0 : 0 ≤ idx - ⌊idx⌋ := by linarith [Int.floor_le idx]
    have hf1 : idx - ⌊idx⌋ ≤ 1 := by linarith [Int.lt_floor_add_one idx]
    constructor <;> nlinarith

/-- Monotonicity of the interpolation in the fractional index, over a sorted
sample. -/
theorem quantileAt_mono {xs : List ℝ} (hs : xs.Sorted (· ≤ ·)) {u v : ℝ}
    (h0 : 0 ≤ u) (huv : u ≤ v) (hv : v ≤ (xs.length : ℝ) - 1) :
    quantileAt xs u ≤ quantileAt xs v := by
  have h0v : (0 : ℝ) ≤ v := le_trans h0 huv
  have hlen1 : (1 : ℝ) ≤ (xs.length : ℝ) := by linarith
  have hcv : ⌈v⌉ ≤ (xs.length : ℤ) - 1 := by
    refine Int.ceil_le.mpr ?_
    push_cast
    linarith
  have hcvN : (⌈v⌉).toNat < xs.length := by
    have h1 : 1 ≤ (xs.length : ℤ) := by exact_mod_cast hlen1
    omega
  have hcu : ⌈u⌉ ≤ ⌈v⌉ := Int.ceil_le_ceil huv
  have hcuN : (⌈u⌉).toNat < xs.length := by
    have := Int.toNat_le_toNat hcu
    omega
  have hfvN : (⌊v⌋).toNat < xs.length := by
    have := Int.toNat_le_toNat (Int.floor_le_ceil v)
    omega
  by_cases hc : ⌈u⌉ ≤ ⌊v⌋
  · calc quantileAt xs u ≤ xs.getD (⌈u⌉).toNat 0 := (quantileAt_between hs hcuN).2
      _ ≤ xs.getD (⌊v⌋).toNat 0 := sorted_getD_mono hs (Int.toNat_le_toNat hc) hfvN
      _ ≤ quantileAt xs v := (quantileAt_between hs hcvN).1
  · -- same interpolation cell: `⌊u⌋ = ⌊v⌋`
    push_neg at hc
    have hffv : ⌊u⌋ ≤ ⌊v⌋ := Int.floor_le_floor huv
    have hcfu : ⌈u⌉ ≤ ⌊u⌋ + 1 := Int.ceil_le_floor_add_one u
    have hfu_eq : ⌊u⌋ = ⌊v⌋ := le_antisymm hffv (by omega)
    by_cases hu : ⌊u⌋ = ⌈u⌉
    · have huv_eq : quantileAt xs u = xs.getD (⌊v⌋).toNat 0 := by
        rw [quantileAt, if_pos hu, hfu_eq]
      rw [huv_eq]
      exact (quantileAt_between hs hcvN).1
    · have hcu1 : ⌈u⌉ = ⌊u⌋ + 1 := by
        rcases lt_or_eq_of_le hcfu with h | h
        · exact absurd (le_antisymm (Int.floor_le_ceil u) (by omega)) hu
        · exact h
      have hvne : ⌊v⌋ ≠ ⌈v⌉ := by
        intro hve
        have hvint : v = (⌊v⌋ : ℝ) := by
          have h2 := Int.le_ceil v
          rw [← hve] at h2
          linarith [Int.floor_le v]
        have huint : u = (⌊u⌋ : ℝ) := by
          have hle : u ≤ (⌊u⌋ : ℝ) := by
            rw [hfu_eq, ← hvint]
            exact huv
          linarith [Int.floor_le u]
        apply hu
        rw [huint, Int.floor_intCast, Int.ceil_intCast]
      have hcv1 : ⌈v⌉ = ⌊v⌋ + 1 := by
        rcases lt_or_eq_of_le (Int.ceil_le_floor_add_one v) with h | h
        · exact absurd (le_antisymm (Int.floor_le_ceil v) (by omega)) hvne
        · exact h
      rw [quantileAt, if_neg hu, quantileAt, if_neg hvne, hfu_eq, hcu1, hfu_eq, hcv1]
      have hAB : xs.getD (⌊v⌋).toNat 0 ≤ xs.getD (⌊v⌋ + 1).toNat 0 := by
        refine sorted_getD_mono hs (Int.toNat_le_toNat (by omega)) ?_
        rw [← hcv1]
        exact hcvN
      have hfr : u - (⌊v⌋ : ℝ) ≤ v - (⌊v⌋ : ℝ) := by linarith
      nlinarith

/-- C7: given that the quantile table entries are linear interpolations
between order statistics of the ascending-sorted ability estimates, the table
is monotonically non-decreasing: `values[i] ≤ values[i+1]` for every valid
index `i`. -/
theorem quantile_table_monotone (n : ℕ) (xs : List ℝ) (hs : xs.Sorted (· ≤ ·))
    (hlen : xs.length = n) (hn : 1 ≤ n) {i : ℕ} (hi : i + 1 ≤ 1000) :
    (buildQuantiles n xs).getD i 0 ≤ (buildQuantiles n xs).getD (i + 1) 0 := by
  have hq : ((quantile_step : ℚ) : ℝ) = 1 / 10 := by norm_num [quantile_step]
  have hentry : ∀ j : ℕ, j < 1001 →
      (buildQuantiles n xs).getD j 0 =
        quantileAt xs (((j : ℝ) * (quantile_step : ℝ) / 100) * ((n : ℝ) - 1)) := by
    intro j hj
    simp only [buildQuantiles, stepsCount_eq, List.getD_eq_getElem?_getD,
      List.getElem?_map, List.getElem?_range, hj, if_true]
    rfl
  rw [hentry i (by omega), hentry (i + 1) (by omega)]
  have hn1 : (1 : ℝ) ≤ (n : ℝ) := by exact_mod_cast hn
  have hiR : (i : ℝ) ≤ 999 := by
    have : (i : ℝ) ≤ (999 : ℕ) := by exact_mod_cast (by omega : i ≤ 999)
    simpa using this
  refine quantileAt_mono hs ?_ ?_ ?_
  · rw [hq]
    exact mul_nonneg (by positivity) (by linarith)
  · rw [hq]
    refine mul_le_mul_of_nonneg_right ?_ (by linarith)
    push_cast
    linarith
  · rw [hq, hlen]
    push_cast
    nlinarith [mul_nonneg
      (by linarith : (0 : ℝ) ≤ 1 - ((i : ℝ) + 1) * (1 / 10) / 100)
      (by linarith : (0 : ℝ) ≤ (n : ℝ) - 1)]

/-- Witness for C7 at `xs = [0, 1]`, `i = 0`. -/
theorem quantile_table_monotone_witness :
    (buildQuantiles 2 [(0 : ℝ), 1]).getD 0 0
      ≤ (buildQuantiles 2 [(0 : ℝ), 1]).getD 1 0 :=
  quantile_table_monotone 2 [(0 : ℝ), 1]
    (by simp [List.Sorted]) (by simp) (by norm_num) (by norm_num)

/-! ## C9: the binary64 index chain stays in bounds -/

theorem floor_le_rhe (x : ℚ) : ⌊x⌋ ≤ rhe x := by
  unfold rhe
  split_ifs <;> omega

theorem rhe_le_floor_add_one (x : ℚ) : rhe x ≤ ⌊x⌋ + 1 := by
  unfold rhe
  split_ifs <;> omega

theorem sub_half_le_rhe (x : ℚ) : x - 1 / 2 ≤ (rhe x : ℚ) := by
  have h1 := Int.floor_le x
  have h2 := Int.lt_floor_add_one x
  unfold rhe
  split_ifs <;> push_cast <;> linarith

theorem rhe_le_add_half (x : ℚ) : (rhe x : ℚ) ≤ x + 1 / 2 := by
  have h1 := Int.floor_le x
  unfold rhe
  split_ifs with h2 h3 h4 <;> push_cast <;> linarith

theorem rhe_mono {x y : ℚ} (h : x ≤ y) : rhe x ≤ rhe y := by
  rcases lt_or_eq_of_le (Int.floor_le_floor h) with hf | hf
  · have h1 := rhe_le_floor_add_one x
    have h2 := floor_le_rhe y
    omega
  · have hfr : x - (⌊x⌋ : ℚ) ≤ y - (⌊x⌋ : ℚ) := by linarith
    unfold rhe
    rw [← hf]
    split_ifs <;> first | omega | linarith

theorem rhe_intCast (n : ℤ) : rhe (n : ℚ) = n := by
  unfold rhe
  rw [Int.floor_intCast]
  norm_num

theorem fl_nonneg (q : ℚ) : 0 ≤ fl q := by
  unfold fl
  split_ifs with h
  · exact le_refl 0
  · push_neg at h
    have hx : (0 : ℚ) < q * 2 ^ (52 - Int.log 2 q) := by positivity
    have hfl : (0 : ℤ) ≤ ⌊q * 2 ^ (52 - Int.log 2 q)⌋ := Int.floor_nonneg.mpr hx.le
    have hr : (0 : ℤ) ≤ rhe (q * 2 ^ (52 - Int.log 2 q)) :=
      le_trans hfl (floor_le_rhe _)
    have : (0 : ℚ) ≤ (rhe (q * 2 ^ (52 - Int.log 2 q)) : ℚ) := by exact_mod_cast hr
    positivity

/-- `fl q` computed with an explicitly supplied exponent bracket. -/
theorem fl_eval {q : ℚ} {e : ℤ} (hq : 0 < q) (h2 : (2 : ℚ) ^ e ≤ q)
    (h3 : q < (2 : ℚ) ^ (e + 1)) :
    fl q = (rhe (q * 2 ^ ((52 : ℤ) - e)) : ℚ) * 2 ^ (e - 52) := by
  have hb : (1 : ℕ) < 2 := by norm_num
  have hcast : (((2 : ℕ) : ℚ)) = (2 : ℚ) := by norm_num
  have hlog : Int.log 2 q = e := by
    have hle : e ≤ Int.log 2 q := by
      rw [← Int.zpow_le_iff_le_log hb hq, hcast]
      exact h2
    have hlt : Int.log 2 q < e + 1 := by
      rw [← Int.lt_zpow_iff_log_lt hb hq, hcast]
      exact h3
    omega
  rw [fl, if_neg (not_le.mpr hq), hlog]

/-- Combining powers of two with integer exponents. -/
theorem two_zpow_add (a b : ℤ) : (2 : ℚ) ^ a * 2 ^ b = 2 ^ (a + b) :=
  (zpow_add₀ (by norm_num : (2 : ℚ) ≠ 0) a b).symm

/-- The rounded value stays inside the binade `[2^e, 2^(e+1)]`. -/
theorem fl_bracket {q : ℚ} (hq : 0 < q) :
    (2 : ℚ) ^ (Int.log 2 q) ≤ fl q ∧ fl q ≤ (2 : ℚ) ^ (Int.log 2 q + 1) := by
  have hb : (1 : ℕ) < 2 := by norm_num
  have hcast : (((2 : ℕ) : ℚ)) = (2 : ℚ) := by norm_num
  set e := Int.log 2 q with he
  have h2 : (2 : ℚ) ^ e ≤ q := by
    have := Int.zpow_log_le_self hb hq (R := ℚ) (b := 2)
    rwa [hcast] at this
  have h3 : q < (2 : ℚ) ^ (e + 1) := by
    have := Int.lt_zpow_succ_log_self hb q (R := ℚ) (b := 2)
    rwa [hcast] at this
  have hx2 : (4503599627370496 : ℚ) ≤ q * 2 ^ ((52 : ℤ) - e) := by
    calc (4503599627370496 : ℚ) = 2 ^ e * 2 ^ ((52 : ℤ) - e) := by
          rw [two_zpow_add, (show e + ((52 : ℤ) - e) = 52 by ring)]
          norm_num
      _ ≤ q * 2 ^ ((52 : ℤ) - e) :=
          mul_le_mul_of_nonneg_right h2 (by positivity)
  have hx3 : q * 2 ^ ((52 : ℤ) - e) < (9007199254740992 : ℚ) := by
    calc q * 2 ^ ((52 : ℤ) - e) < 2 ^ (e + 1) * 2 ^ ((52 : ℤ) - e) :=
          mul_lt_mul_of_pos_right h3 (by positivity)
      _ = (9007199254740992 : ℚ) := by
          rw [two_zpow_add, (show e + 1 + ((52 : ℤ) - e) = 53 by ring)]
          norm_num
  have hrloZ : (4503599627370496 : ℤ) ≤ rhe (q * 2 ^ ((52 : ℤ) - e)) := by
    have h1 := sub_half_le_rhe (q * 2 ^ ((52 : ℤ) - e))
    have hgt : ((4503599627370495 : ℤ) : ℚ) < (rhe (q * 2 ^ ((52 : ℤ) - e)) : ℚ) := by
      push_cast
      linarith
    have : (4503599627370495 : ℤ) < rhe (q * 2 ^ ((52 : ℤ) - e)) := by
      exact_mod_cast hgt
    omega
  have hrhiZ : rhe (q * 2 ^ ((52 : ℤ) - e)) ≤ (9007199254740992 : ℤ) := by
    have h1 := rhe_le_add_half (q * 2 ^ ((52 : ℤ) - e))
    have hlt : (rhe (q * 2 ^ ((52 : ℤ) - e)) : ℚ) < ((9007199254740993 : ℤ) : ℚ) := by
      push_cast
      linarith
    have : rhe (q * 2 ^ ((52 : ℤ) - e)) < (9007199254740993 : ℤ) := by
      exact_mod_cast hlt
    omega
  have hrlo : (4503599627370496 : ℚ) ≤ (rhe (q * 2 ^ ((52 : ℤ) - e)) : ℚ) := by
    exact_mod_cast hrloZ
  have hrhi : (rhe (q * 2 ^ ((52 : ℤ) - e)) : ℚ) ≤ (9007199254740992 : ℚ) := by
    exact_mod_cast hrhiZ
  rw [fl_eval hq h2 h3]
  constructor
  · calc (2 : ℚ) ^ e = 4503599627370496 * 2 ^ (e - 52) := by
          rw [(show (4503599627370496 : ℚ) = 2 ^ (52 : ℤ) by norm_num),
            two_zpow_add, (show (52 : ℤ) + (e - 52) = e by ring)]
      _ ≤ (rhe (q * 2 ^ ((52 : ℤ) - e)) : ℚ) * 2 ^ (e - 52) :=
          mul_le_mul_of_nonneg_right hrlo (by positivity)
  · calc (rhe (q * 2 ^ ((52 : ℤ) - e)) : ℚ) * 2 ^ (e - 52)
        ≤ 9007199254740992 * 2 ^ (e - 52) :=
          mul_le_mul_of_nonneg_right hrhi (by positivity)
      _ = (2 : ℚ) ^ (e + 1) := by
          rw [(show (9007199254740992 : ℚ) = 2 ^ (53 : ℤ) by norm_num),
            two_zpow_add, (show (53 : ℤ) + (e - 52) = e + 1 by ring)]

/-- Binary64 rounding is monotone on nonnegative values. -/
theorem fl_mono {q1 q2 : ℚ} (h1 : 0 ≤ q1) (h : q1 ≤ q2) : fl q1 ≤ fl q2 := by
  rcases eq_or_lt_of_le h1 with rfl | h1
  · rw [show fl 0 = 0 from by rw [fl, if_pos (le_refl 0)]]
    exact fl_nonneg q2
  · have h2 : (0 : ℚ) < q2 := lt_of_lt_of_le h1 h
    have hlog : Int.log 2 q1 ≤ Int.log 2 q2 := Int.log_mono_right h1 h
    rcases lt_or_eq_of_le hlog with hlt | heq
    · calc fl q1 ≤ (2 : ℚ) ^ (Int.log 2 q1 + 1) := (fl_bracket h1).2
        _ ≤ (2 : ℚ) ^ (Int.log 2 q2) :=
            zpow_le_zpow_right₀ (by norm_num) (by omega)
        _ ≤ fl q2 := (fl_bracket h2).1
    · rw [fl, if_neg (not_le.mpr h1), fl, if_neg (not_le.mpr h2), ← heq]
      have hr : rhe (q1 * 2 ^ (52 - Int.log 2 q1))
          ≤ rhe (q2 * 2 ^ (52 - Int.log 2 q1)) :=
        rhe_mono (mul_le_mul_of_nonneg_right h (by positivity))
      exact mul_le_mul_of_nonneg_right (by exact_mod_cast hr) (by positivity)

/-- `1000 * 0.1` rounds to exactly `100.0` in binary64. -/
theorem fl_thousand_tenths : fl ((1000 : ℚ) * flTenth) = 100 := by
  have hq : (1000 : ℚ) * flTenth = 3602879701896397000 / 36028797018963968 := by
    norm_num [flTenth]
  have hzp : ((2 : ℚ) ^ ((52 : ℤ) - 6)) = 70368744177664 := by norm_num
  have hrhe : rhe ((1000 : ℚ) * flTenth * 2 ^ ((52 : ℤ) - 6))
      = 7036874417766400 := by
    have harg : (1000 : ℚ) * flTenth * 2 ^ ((52 : ℤ) - 6)
        = 3602879701896397000 / 512 := by
      rw [hq, hzp]
      norm_num
    rw [harg]
    have hfl : ⌊(3602879701896397000 : ℚ) / 512⌋ = 7036874417766400 := by
      rw [Int.floor_eq_iff]
      constructor <;> norm_num
    rw [rhe, hfl, if_pos ?_]
    push_cast
    norm_num
  rw [fl_eval (by rw [hq]; norm_num) (e := 6) (by rw [hq]; norm_num)
      (by rw [hq]; norm_num), hrhe]
  have : ((2 : ℚ) ^ ((6 : ℤ) - 52)) = 1 / 70368744177664 := by
    rw [(show ((6 : ℤ) - 52) = -(46 : ℤ) by norm_num), zpow_neg]
    norm_num
  rw [this]
  norm_num

/-- `1.0` is a fixed point of binary64 rounding. -/
theorem fl_one : fl (1 : ℚ) = 1 := by
  rw [fl_eval (e := 0) (by norm_num) (by norm_num) (by norm_num)]
  have h1 : rhe ((1 : ℚ) * 2 ^ ((52 : ℤ) - 0)) = 4503599627370496 := by
    have harg : (1 : ℚ) * 2 ^ ((52 : ℤ) - 0) = ((4503599627370496 : ℤ) : ℚ) := by
      push_cast
      norm_num
    rw [harg, rhe_intCast]
  rw [h1]
  have : ((2 : ℚ) ^ ((0 : ℤ) - 52)) = 1 / 4503599627370496 := by
    rw [(show ((0 : ℤ) - 52) = -(52 : ℤ) by norm_num), zpow_neg]
    norm_num
  rw [this]
  norm_num

/-- `199999.0` is a fixed point of binary64 rounding. -/
theorem fl_199999 : fl (199999 : ℚ) = 199999 := by
  rw [fl_eval (e := 17) (by norm_num) (by norm_num) (by norm_num)]
  have h1 : rhe ((199999 : ℚ) * 2 ^ ((52 : ℤ) - 17)) = 6871913313861632 := by
    have harg : (199999 : ℚ) * 2 ^ ((52 : ℤ) - 17)
        = ((6871913313861632 : ℤ) : ℚ) := by
      push_cast
      norm_num
    rw [harg, rhe_intCast]
  rw [h1]
  have : ((2 : ℚ) ^ ((17 : ℤ) - 52)) = 1 / 34359738368 := by
    rw [(show ((17 : ℤ) - 52) = -(35 : ℤ) by norm_num), zpow_neg]
    norm_num
  rw [this]
  norm_num

theorem flTenth_nonneg : (0 : ℚ) ≤ flTenth := by norm_num [flTenth]

/-- C9: with `population_size = 200000` and `quantile_step = 0.1`, every
list access in the quantile-building loop is in bounds under IEEE binary64
arithmetic: for `i ≤ 1000` the index `idx = (i*0.1/100.0)*(population_size-1)`
satisfies `0 ≤ floor(idx)` and `ceil(idx) ≤ population_size - 1`; at
`i = 1000` the computed fraction `i * quantile_step / 100.0` is exactly
`1.0`. -/
theorem quantile_index_in_bounds (i : ℕ) (hi : i ≤ 1000) :
    0 ≤ ⌊flIdx i⌋ ∧ ⌈flIdx i⌉ ≤ 199999 ∧ flP 1000 = 1 := by
  have hstep : fl ((1000 : ℚ) * flTenth) / 100 = 1 := by
    rw [fl_thousand_tenths]
    norm_num
  have hP1000 : flP 1000 = 1 := by
    rw [flP]
    push_cast
    rw [hstep, fl_one]
  have hPle : ∀ j : ℕ, j ≤ 1000 → flP j ≤ 1 := by
    intro j hj
    have hmul : (j : ℚ) * flTenth ≤ (1000 : ℚ) * flTenth :=
      mul_le_mul_of_nonneg_right (by exact_mod_cast hj) flTenth_nonneg
    have hfj : fl ((j : ℚ) * flTenth) ≤ fl ((1000 : ℚ) * flTenth) :=
      fl_mono (mul_nonneg (Nat.cast_nonneg j) flTenth_nonneg) hmul
    calc flP j = fl (fl ((j : ℚ) * flTenth) / 100) := rfl
      _ ≤ fl (fl ((1000 : ℚ) * flTenth) / 100) := by
          refine fl_mono (div_nonneg (fl_nonneg _) (by norm_num)) ?_
          gcongr
      _ = 1 := by rw [hstep, fl_one]
  have hIdx0 : (0 : ℚ) ≤ flIdx i := fl_nonneg _
  have hIdxle : flIdx i ≤ 199999 := by
    have hP0 : (0 : ℚ) ≤ flP i := fl_nonneg _
    calc flIdx i = fl (flP i * 199999) := rfl
      _ ≤ fl ((1 : ℚ) * 199999) :=
          fl_mono (by positivity)
            (mul_le_mul_of_nonneg_right (hPle i hi) (by norm_num))
      _ = 199999 := by rw [one_mul, fl_199999]
  refine ⟨Int.floor_nonneg.mpr hIdx0, ?_, hP1000⟩
  rw [Int.ceil_le]
  exact_mod_cast hIdxle

/-- Witness for C9 at `i = 1000`. -/
theorem quantile_index_in_bounds_witness :
    0 ≤ ⌊flIdx 1000⌋ ∧ ⌈flIdx 1000⌉ ≤ 199999 ∧ flP 1000 = 1 :=
  quantile_index_in_bounds 1000 (le_refl 1000)

/-! ## C2: behaviour on a target probability outside `(0,1)` -/

theorem logitE_ok {p : ℝ} (h0 : 0 < p) (h1 : p < 1) :
    logitE p = .ok (Real.log (p / (1 - p))) := by
  rw [logitE, if_neg (by linarith), if_neg ?_]
  rw [not_le]
  exact div_pos h0 (by linarith)

theorem logitE_bad {p : ℝ} (h : ¬(0 < p ∧ p < 1)) :
    logitE p = .error .valueError ∨ logitE p = .error .zeroDivision := by
  rcases eq_or_ne p 1 with rfl | hp1
  · right; rw [logitE, if_pos rfl]
  · left
    rw [logitE, if_neg hp1, if_pos ?_]
    push_neg at h
    rcases le_or_lt p 0 with hp | hp
    · exact div_nonpos_of_nonpos_of_nonneg hp (by linarith)
    · have h1 : 1 < p := lt_of_le_of_ne (h hp) (Ne.symm hp1)
      have : 1 - p < 0 := by linarith
      exact (div_neg_of_pos_of_neg hp this).le

/-- If any probability in the list lies outside `(0,1)`, the discrimination
comprehension raises an arithmetic error (`ValueError` from `math.log` or
`ZeroDivisionError` from `p/(1-p)`). -/
theorem discriminationsE_err : ∀ (ps : List ℝ),
    (∃ p ∈ ps, ¬(0 < p ∧ p < 1)) →
    ∃ e, discriminationsE ps = .error e ∧
      (e = PyErr.valueError ∨ e = PyErr.zeroDivision) := by
  intro ps
  induction ps with
  | nil => rintro ⟨p, hp, _⟩; exact absurd hp (List.not_mem_nil p)
  | cons q ps ih =>
    rintro ⟨p, hp, hbad⟩
    rcases List.mem_cons.mp hp with rfl | hptail
    · rcases logitE_bad hbad with h | h
      · exact ⟨.valueError, by simp [discriminationsE, h, bind, Except.bind], Or.inl rfl⟩
      · exact ⟨.zeroDivision, by simp [discriminationsE, h, bind, Except.bind], Or.inr rfl⟩
    · by_cases hq : 0 < q ∧ q < 1
      · obtain ⟨e, he, hor⟩ := ih ⟨p, hptail, hbad⟩
        refine ⟨e, ?_, hor⟩
        simp [discriminationsE, logitE_ok hq.1 hq.2, he, bind, Except.bind]
      · rcases logitE_bad hq with h | h
        · exact ⟨.valueError, by simp [discriminationsE, h, bind, Except.bind], Or.inl rfl⟩
        · exact ⟨.zeroDivision, by simp [discriminationsE, h, bind, Except.bind], Or.inr rfl⟩

/-- C2 counterexample: on the concrete parsed input `[("q", 1.5)]`, whose
probability lies outside `(0,1)`, the pipeline does abort — but with a
`ValueError` raised by `math.log` inside the discrimination-derivation step
of calibration (line 153), not with the configuration error (`SystemExit`,
line 148), so a calibration step *is* executed on such input. -/
theorem mainCore_bad_prob_not_configError :
    mainCore (fun _ _ => 0) "" [("q", (3 : ℝ) / 2)] = .error .valueError ∧
      (Except.error PyErr.valueError : Except PyErr Calibration)
        ≠ .error .systemExit := by
  constructor
  · have h1 : logitE ((3 : ℝ) / 2) = .error .valueError := by
      rw [logitE, if_neg (by norm_num), if_pos (by norm_num)]
    rw [mainCore, if_neg (by simp)]
    simp [discriminationsE, h1, bind, Except.bind]
  · intro h
    exact PyErr.noConfusion (Except.error.inj h)

/-- C2, amended: if the parsed input contains any target probability outside
`(0,1)` the pipeline aborts before any simulation output is produced, but
via an arithmetic error (`ValueError`/`ZeroDivisionError`) raised inside the
discrimination-derivation step of calibration; there is no pre-calibration
configuration check for the probability range (the only configuration error,
`SystemExit`, covers the empty-input case). -/
theorem mainCore_aborts_on_bad_probability (mt : ℕ → ℕ → ℝ) (d : String)
    (pairs : List (String × ℝ))
    (hbad : ∃ p ∈ pairs.map Prod.snd, ¬(0 < p ∧ p < 1)) :
    ∃ e, mainCore mt d pairs = .error e ∧
      (e = PyErr.valueError ∨ e = PyErr.zeroDivision) := by
  have hne : pairs ≠ [] := by
    rintro rfl
    obtain ⟨p, hp, _⟩ := hbad
    simp at hp
  obtain ⟨e, he, hor⟩ := discriminationsE_err (pairs.map Prod.snd) hbad
  refine ⟨e, ?_, hor⟩
  rw [mainCore, if_neg hne]
  simp [he, bind, Except.bind]

/-- Witness for the amended C2 at input `[("q", 1.5)]`. -/
theorem mainCore_aborts_on_bad_probability_witness :
    ∃ e, mainCore (fun _ _ => 0) "2024-01-01" [("q", (3 : ℝ) / 2)] = .error e ∧
      (e = PyErr.valueError ∨ e = PyErr.zeroDivision) :=
  mainCore_aborts_on_bad_probability (fun _ _ => 0) "2024-01-01"
    [("q", (3 : ℝ) / 2)] ⟨(3 : ℝ) / 2, by simp, by norm_num⟩

/-- Witness for C8 at `n = 0`, `xs = []`, `i = 0`. -/
theorem buildQuantiles_shape_witness :
    (buildQuantiles 0 []).length = 1001 ∧
      (1001 : ℤ) = ⌊(100 : ℚ) / quantile_step⌋ + 1 ∧
      (0 : ℕ) ≤ 1000 ∧
      (buildQuantiles 0 []).getD 0 0 =
        quantileAt [] (((0 : ℕ) : ℝ) * (quantile_step : ℝ) / 100 * (((0:ℕ) : ℝ) - 1)) :=
  ⟨(buildQuantiles_shape 0 []).1, (buildQuantiles_shape 0 []).2.1, by norm_num,
    (buildQuantiles_shape 0 []).2.2 0 (by norm_num)⟩

/-! ## C5: monotonicity of `estimate_theta_map` in the answers

The exact MAP optimum is monotone in the answers, and so is the first Newton
update, but the value returned by the early-stopped 40-iteration Newton loop
is not: with strongly saturating items the iteration becomes a two-cycle
whose phase after 40 iterations moves the returned value arbitrarily far in
either direction when an answer flips. -/

theorem sigmoid_le_exp (z : ℝ) : sigmoid z ≤ Real.exp z := by
  have h1 : Real.exp (-z) ≤ 1 + Real.exp (-z) := by linarith
  have h2 : sigmoid z ≤ 1 / Real.exp (-z) := by
    unfold sigmoid
    exact one_div_le_one_div_of_le (Real.exp_pos (-z)) h1
  rwa [Real.exp_neg, one_div, inv_inv] at h2

theorem one_sub_sigmoid_le_exp (z : ℝ) : 1 - sigmoid z ≤ Real.exp (-z) := by
  have hpos : (0 : ℝ) < 1 + Real.exp (-z) := by positivity
  have heq : 1 - sigmoid z = Real.exp (-z) / (1 + Real.exp (-z)) := by
    unfold sigmoid
    field_simp
  rw [heq]
  exact div_le_self (Real.exp_pos (-z)).le (by linarith [Real.exp_pos (-z)])

theorem two_le_exp_one : (2 : ℝ) ≤ Real.exp 1 := by
  have h := Real.exp_one_gt_d9
  linarith

theorem two_pow_le_exp_nat (n : ℕ) : (2 : ℝ) ^ n ≤ Real.exp n := by
  have h1 : Real.exp ((n : ℝ)) = Real.exp 1 ^ n := by
    rw [← Real.exp_nat_mul, mul_one]
  rw [h1]
  exact pow_le_pow_left (by norm_num) two_le_exp_one n

theorem exp_le_eps {z : ℝ} (h : z ≤ -100) : Real.exp z ≤ 1e-30 := by
  have h1 : Real.exp z ≤ Real.exp (-100) := Real.exp_le_exp.mpr h
  have h2 : (2 : ℝ) ^ (100 : ℕ) ≤ Real.exp 100 := by
    have h3 := two_pow_le_exp_nat 100
    have h4 : ((100 : ℕ) : ℝ) = (100 : ℝ) := by norm_num
    rwa [h4] at h3
  have h3 : Real.exp (-100) = (Real.exp 100)⁻¹ := Real.exp_neg 100
  have h4 : (Real.exp 100)⁻¹ ≤ ((2 : ℝ) ^ (100 : ℕ))⁻¹ := by
    exact inv_le_inv_of_le (by positivity) h2
  have h5 : ((2 : ℝ) ^ (100 : ℕ))⁻¹ ≤ 1e-30 := by norm_num
  rw [h3] at h1
  linarith

theorem sigmoid_le_eps {z : ℝ} (h : z ≤ -100) : sigmoid z ≤ 1e-30 :=
  le_trans (sigmoid_le_exp z) (exp_le_eps h)

theorem sigmoid_ge_eps {z : ℝ} (h : (100 : ℝ) ≤ z) : 1 - 1e-30 ≤ sigmoid z := by
  have h1 : 1 - sigmoid z ≤ Real.exp (-z) := one_sub_sigmoid_le_exp z
  have h2 : Real.exp (-z) ≤ 1e-30 := exp_le_eps (by linarith)
  linarith

/-- `newtonUpdate` on two items, written out. -/
theorem newtonUpdate_pair (y1 y2 : Bool) (b1 b2 a1 a2 theta : ℝ) :
    newtonUpdate [y1, y2] [b1, b2] [a1, a2] theta =
      (-theta + a1 * ((if y1 then (1 : ℝ) else 0) - sigmoid (a1 * (theta - b1)))
          + a2 * ((if y2 then (1 : ℝ) else 0) - sigmoid (a2 * (theta - b2))),
       -1 + -(a1 * a1) * sigmoid (a1 * (theta - b1)) * (1 - sigmoid (a1 * (theta - b1)))
          + -(a2 * a2) * sigmoid (a2 * (theta - b2)) * (1 - sigmoid (a2 * (theta - b2)))) :=
  rfl

theorem div_shift_bound {G H t c : ℝ} (hH : H ≤ -1) (hN : |t * H - G| ≤ c) :
    |t - G / H| ≤ c := by
  have hHne : H ≠ 0 := by intro h0; rw [h0] at hH; linarith
  have hEq : t - G / H = (t * H - G) / H := by field_simp
  have h1 : (1 : ℝ) ≤ |H| := by
    rw [abs_of_nonpos (by linarith)]
    linarith
  rw [hEq, abs_div]
  calc |t * H - G| / |H| ≤ |t * H - G| / 1 :=
        div_le_div_of_nonneg_left (abs_nonneg _) (by norm_num) h1
    _ = |t * H - G| := div_one _
    _ ≤ c := hN

theorem div_abs_big {G H : ℝ} (hG : 19 ≤ |G|) (hH1 : H ≤ -1) (hH2 : -2 ≤ H) :
    (1e-8 : ℝ) ≤ |G / H| := by
  have hH : |H| ≤ 2 := by
    rw [abs_of_nonpos (by linarith)]
    linarith
  have h0 : (0 : ℝ) < |H| := by
    rw [abs_of_nonpos (by linarith)]
    linarith
  rw [abs_div]
  have h9 : (9 : ℝ) ≤ |G| / |H| := by
    rw [le_div_iff h0]
    nlinarith
  linarith

/-- Saturation bounds for the flipped pattern `[true, false]` with items
`(b, a) = (5, 20), (7, 20)` at a point near `+20`: the gradient is close to
`-theta - 20` and the curvature close to `-1`. -/
theorem flip_gh_hi {theta : ℝ} (hθ : |theta - 20| ≤ 1) :
    -theta - 20 ≤ (newtonUpdate [true, false] [5, 7] [20, 20] theta).1 ∧
      (newtonUpdate [true, false] [5, 7] [20, 20] theta).1 ≤ -theta - 20 + 13e-29 ∧
      -1 - 82e-28 ≤ (newtonUpdate [true, false] [5, 7] [20, 20] theta).2 ∧
      (newtonUpdate [true, false] [5, 7] [20, 20] theta).2 ≤ -1 := by
  rw [newtonUpdate_pair]
  have hθ1 : (19 : ℝ) ≤ theta := by
    rcases abs_le.mp hθ with ⟨h1, _⟩
    linarith
  have hs1 : 1 - 1e-30 ≤ sigmoid (20 * (theta - 5)) :=
    sigmoid_ge_eps (by nlinarith)
  have hs1' := sigmoid_lt_one (20 * (theta - 5))
  have hs1'' := sigmoid_pos (20 * (theta - 5))
  have hs2 : 1 - 1e-30 ≤ sigmoid (20 * (theta - 7)) :=
    sigmoid_ge_eps (by nlinarith)
  have hs2' := sigmoid_lt_one (20 * (theta - 7))
  have hs2'' := sigmoid_pos (20 * (theta - 7))
  have hq1 : sigmoid (20 * (theta - 5)) * (1 - sigmoid (20 * (theta - 5))) ≤ 1e-30 := by
    nlinarith
  have hq1' : 0 ≤ sigmoid (20 * (theta - 5)) * (1 - sigmoid (20 * (theta - 5))) := by
    nlinarith
  have hq2 : sigmoid (20 * (theta - 7)) * (1 - sigmoid (20 * (theta - 7))) ≤ 1e-30 := by
    nlinarith
  have hq2' : 0 ≤ sigmoid (20 * (theta - 7)) * (1 - sigmoid (20 * (theta - 7))) := by
    nlinarith
  norm_num
  refine ⟨by nlinarith, by nlinarith, by nlinarith, by nlinarith⟩

/-- Saturation bounds for the flipped pattern near `-20`: the gradient is
close to `-theta + 20` and the curvature close to `-1`. -/
theorem flip_gh_lo {theta : ℝ} (hθ : |theta + 20| ≤ 1) :
    -theta + 20 - 13e-29 ≤ (newtonUpdate [true, false] [5, 7] [20, 20] theta).1 ∧
      (newtonUpdate [true, false] [5, 7] [20, 20] theta).1 ≤ -theta + 20 ∧
      -1 - 82e-28 ≤ (newtonUpdate [true, false] [5, 7] [20, 20] theta).2 ∧
      (newtonUpdate [true, false] [5, 7] [20, 20] theta).2 ≤ -1 := by
  rw [newtonUpdate_pair]
  have hθ1 : theta ≤ -19 := by
    rcases abs_le.mp hθ with ⟨_, h2⟩
    linarith
  have hs1 : sigmoid (20 * (theta - 5)) ≤ 1e-30 :=
    sigmoid_le_eps (by nlinarith)
  have hs1'' := sigmoid_pos (20 * (theta - 5))
  have hs1' := sigmoid_lt_one (20 * (theta - 5))
  have hs2 : sigmoid (20 * (theta - 7)) ≤ 1e-30 :=
    sigmoid_le_eps (by nlinarith)
  have hs2'' := sigmoid_pos (20 * (theta - 7))
  have hs2' := sigmoid_lt_one (20 * (theta - 7))
  have hq1 : sigmoid (20 * (theta - 5)) * (1 - sigmoid (20 * (theta - 5))) ≤ 1e-30 := by
    nlinarith
  have hq1' : 0 ≤ sigmoid (20 * (theta - 5)) * (1 - sigmoid (20 * (theta - 5))) := by
    nlinarith
  have hq2 : sigmoid (20 * (theta - 7)) * (1 - sigmoid (20 * (theta - 7))) ≤ 1e-30 := by
    nlinarith
  have hq2' : 0 ≤ sigmoid (20 * (theta - 7)) * (1 - sigmoid (20 * (theta - 7))) := by
    nlinarith
  norm_num
  refine ⟨by nlinarith, by nlinarith, by nlinarith, by nlinarith⟩

/-- From a point near `+20` the flipped iteration takes a full step (no
early stop) to a point near `-20`. -/
theorem flip_go_hi (n : ℕ) {theta : ℝ} (hθ : |theta - 20| ≤ 1) :
    ∃ theta', newtonGo [true, false] [5, 7] [20, 20] (n + 1) theta
        = newtonGo [true, false] [5, 7] [20, 20] n theta' ∧ |theta' + 20| ≤ 1 := by
  obtain ⟨hG1, hG2, hH1, hH2⟩ := flip_gh_hi hθ
  set G := (newtonUpdate [true, false] [5, 7] [20, 20] theta).1 with hGdef
  set H := (newtonUpdate [true, false] [5, 7] [20, 20] theta).2 with hHdef
  have hθ1 : (19 : ℝ) ≤ theta := by
    rcases abs_le.mp hθ with ⟨h1, _⟩
    linarith
  have hθ2 : theta ≤ 21 := by
    rcases abs_le.mp hθ with ⟨_, h2⟩
    linarith
  have habsG : 19 ≤ |G| := by
    rw [abs_of_nonpos (by linarith)]
    linarith
  have hbig := div_abs_big habsG hH2 (by linarith)
  have hshift : |(theta + 20) - G / H| ≤ 1 := by
    refine div_shift_bound hH2 ?_
    have hup : (theta + 20) * H - G ≤ 0 := by nlinarith
    have hlo : -(1 : ℝ) ≤ (theta + 20) * H - G := by nlinarith
    rw [abs_le]
    constructor <;> linarith
  refine ⟨theta - G / H, ?_, ?_⟩
  · show newtonGo [true, false] [5, 7] [20, 20] (n + 1) theta = _
    rw [newtonGo]
    simp only [← hGdef, ← hHdef]
    rw [if_neg (not_lt.mpr hbig)]
  · have : theta - G / H + 20 = (theta + 20) - G / H := by ring
    rw [this]
    exact hshift

/-- From a point near `-20` the flipped iteration takes a full step back to
a point near `+20`. -/
theorem flip_go_lo (n : ℕ) {theta : ℝ} (hθ : |theta + 20| ≤ 1) :
    ∃ theta', newtonGo [true, false] [5, 7] [20, 20] (n + 1) theta
        = newtonGo [true, false] [5, 7] [20, 20] n theta' ∧ |theta' - 20| ≤ 1 := by
  obtain ⟨hG1, hG2, hH1, hH2⟩ := flip_gh_lo hθ
  set G := (newtonUpdate [true, false] [5, 7] [20, 20] theta).1 with hGdef
  set H := (newtonUpdate [true, false] [5, 7] [20, 20] theta).2 with hHdef
  have hθ1 : theta ≤ -19 := by
    rcases abs_le.mp hθ with ⟨_, h2⟩
    linarith
  have hθ2 : -21 ≤ theta := by
    rcases abs_le.mp hθ with ⟨h1, _⟩
    linarith
  have habsG : 19 ≤ |G| := by
    rw [abs_of_nonneg (by linarith)]
    linarith
  have hbig := div_abs_big habsG hH2 (by linarith)
  have hshift : |(theta - 20) - G / H| ≤ 1 := by
    refine div_shift_bound hH2 ?_
    have hup : (theta - 20) * H - G ≤ 1 := by nlinarith
    have hlo : (0 : ℝ) ≤ (theta - 20) * H - G := by nlinarith
    rw [abs_le]
    constructor <;> linarith
  refine ⟨theta - G / H, ?_, ?_⟩
  · show newtonGo [true, false] [5, 7] [20, 20] (n + 1) theta = _
    rw [newtonGo]
    simp only [← hGdef, ← hHdef]
    rw [if_neg (not_lt.mpr hbig)]
  · have : theta - G / H - 20 = (theta - 20) - G / H := by ring
    rw [this]
    exact hshift

/-- The flipped iteration stays on its two-cycle: an even number of steps
from a point near `-20` lands near `-20`. -/
theorem flip_go_even : ∀ (k : ℕ) {theta : ℝ}, |theta + 20| ≤ 1 →
    |newtonGo [true, false] [5, 7] [20, 20] (2 * k) theta + 20| ≤ 1 := by
  intro k
  induction k with
  | zero =>
    intro theta hθ
    simpa [newtonGo] using hθ
  | succ k ih =>
    intro theta hθ
    have h2 : 2 * (k + 1) = (2 * k + 1) + 1 := by ring
    rw [h2]
    obtain ⟨t1, he1, ht1⟩ := flip_go_lo (2 * k + 1) hθ
    rw [he1]
    obtain ⟨t2, he2, ht2⟩ := flip_go_hi (2 * k) ht1
    rw [he2]
    exact ih ht2

/-- The flipped run returns a value close to `-20`. -/
theorem flip_run_value :
    estimate_theta_map [true, false] [5, 7] [20, 20] ≤ -19 := by
  have hfirst : ∃ theta', newtonGo [true, false] [5, 7] [20, 20] 40 0
      = newtonGo [true, false] [5, 7] [20, 20] 39 theta' ∧ |theta' - 20| ≤ 1 := by
    have hs1 : sigmoid (20 * ((0 : ℝ) - 5)) ≤ 1e-30 := sigmoid_le_eps (by norm_num)
    have hs1' := sigmoid_pos (20 * ((0 : ℝ) - 5))
    have hs1'' := sigmoid_lt_one (20 * ((0 : ℝ) - 5))
    have hs2 : sigmoid (20 * ((0 : ℝ) - 7)) ≤ 1e-30 := sigmoid_le_eps (by norm_num)
    have hs2' := sigmoid_pos (20 * ((0 : ℝ) - 7))
    have hs2'' := sigmoid_lt_one (20 * ((0 : ℝ) - 7))
    have hq1 : sigmoid (20 * ((0:ℝ) - 5)) * (1 - sigmoid (20 * ((0:ℝ) - 5))) ≤ 1e-30 := by
      nlinarith
    have hq1' : 0 ≤ sigmoid (20 * ((0:ℝ) - 5)) * (1 - sigmoid (20 * ((0:ℝ) - 5))) := by
      nlinarith
    have hq2 : sigmoid (20 * ((0:ℝ) - 7)) * (1 - sigmoid (20 * ((0:ℝ) - 7))) ≤ 1e-30 := by
      nlinarith
    have hq2' : 0 ≤ sigmoid (20 * ((0:ℝ) - 7)) * (1 - sigmoid (20 * ((0:ℝ) - 7))) := by
      nlinarith
    have hpair := newtonUpdate_pair true false 5 7 20 20 0
    set G := (newtonUpdate [true, false] [5, 7] [20, 20] (0 : ℝ)).1 with hGdef
    set H := (newtonUpdate [true, false] [5, 7] [20, 20] (0 : ℝ)).2 with hHdef
    have hGv : G = -0 + 20 * (1 - sigmoid (20 * ((0:ℝ) - 5)))
        + 20 * (0 - sigmoid (20 * ((0:ℝ) - 7))) := by
      rw [hGdef, hpair]
      norm_num
    have hHv : H = -1 + -(20 * 20) * sigmoid (20 * ((0:ℝ) - 5)) * (1 - sigmoid (20 * ((0:ℝ) - 5)))
        + -(20 * 20) * sigmoid (20 * ((0:ℝ) - 7)) * (1 - sigmoid (20 * ((0:ℝ) - 7))) := by
      rw [hHdef, hpair]
    have hG1 : 20 - 13e-29 ≤ G := by rw [hGv]; nlinarith
    have hG2 : G ≤ 20 := by rw [hGv]; nlinarith
    have hH1 : -1 - 82e-28 ≤ H := by rw [hHv]; nlinarith
    have hH2 : H ≤ -1 := by rw [hHv]; nlinarith
    have habsG : 19 ≤ |G| := by
      rw [abs_of_nonneg (by linarith)]
      linarith
    have hbig := div_abs_big habsG hH2 (by linarith)
    have hshift : |((0:ℝ) - 20) - G / H| ≤ 1 := by
      refine div_shift_bound hH2 ?_
      have hup : ((0:ℝ) - 20) * H - G ≤ 1 := by nlinarith
      have hlo : (0 : ℝ) ≤ ((0:ℝ) - 20) * H - G := by nlinarith
      rw [abs_le]
      constructor <;> linarith
    refine ⟨0 - G / H, ?_, ?_⟩
    · show newtonGo [true, false] [5, 7] [20, 20] (39 + 1) 0 = _
      rw [newtonGo]
      simp only [← hGdef, ← hHdef]
      rw [if_neg (not_lt.mpr hbig)]
    · have : (0 : ℝ) - G / H - 20 = ((0:ℝ) - 20) - G / H := by ring
      rw [this]
      exact hshift
  obtain ⟨t1, he1, ht1⟩ := hfirst
  obtain ⟨t2, he2, ht2⟩ := flip_go_hi 38 ht1
  have hfin := flip_go_even 19 ht2
  have h38 : 2 * 19 = 38 := by norm_num
  rw [h38] at hfin
  have : estimate_theta_map [true, false] [5, 7] [20, 20]
      = newtonGo [true, false] [5, 7] [20, 20] 38 t2 := by
    rw [estimate_theta_map, if_neg (by simp), he1, he2]
  rw [this]
  rcases abs_le.mp hfin with ⟨h1, _⟩
  linarith

/-- The base run `[false, false]` stops at the first iteration and returns a
value within `1e-8` of `0`. -/
theorem base_run_value :
    -1 ≤ estimate_theta_map [false, false] [5, 7] [20, 20] := by
  have hs1 : sigmoid (20 * ((0 : ℝ) - 5)) ≤ 1e-30 := sigmoid_le_eps (by norm_num)
  have hs1' := sigmoid_pos (20 * ((0 : ℝ) - 5))
  have hs1'' := sigmoid_lt_one (20 * ((0 : ℝ) - 5))
  have hs2 : sigmoid (20 * ((0 : ℝ) - 7)) ≤ 1e-30 := sigmoid_le_eps (by norm_num)
  have hs2' := sigmoid_pos (20 * ((0 : ℝ) - 7))
  have hs2'' := sigmoid_lt_one (20 * ((0 : ℝ) - 7))
  have hq1 : sigmoid (20 * ((0:ℝ) - 5)) * (1 - sigmoid (20 * ((0:ℝ) - 5))) ≤ 1e-30 := by
    nlinarith
  have hq1' : 0 ≤ sigmoid (20 * ((0:ℝ) - 5)) * (1 - sigmoid (20 * ((0:ℝ) - 5))) := by
    nlinarith
  have hq2 : sigmoid (20 * ((0:ℝ) - 7)) * (1 - sigmoid (20 * ((0:ℝ) - 7))) ≤ 1e-30 := by
    nlinarith
  have hq2' : 0 ≤ sigmoid (20 * ((0:ℝ) - 7)) * (1 - sigmoid (20 * ((0:ℝ) - 7))) := by
    nlinarith
  have hpair := newtonUpdate_pair false false 5 7 20 20 0
  set G := (newtonUpdate [false, false] [5, 7] [20, 20] (0 : ℝ)).1 with hGdef
  set H := (newtonUpdate [false, false] [5, 7] [20, 20] (0 : ℝ)).2 with hHdef
  have hGv : G = -0 + 20 * (0 - sigmoid (20 * ((0:ℝ) - 5)))
      + 20 * (0 - sigmoid (20 * ((0:ℝ) - 7))) := by
    rw [hGdef, hpair]
    norm_num
  have hHv : H = -1 + -(20 * 20) * sigmoid (20 * ((0:ℝ) - 5)) * (1 - sigmoid (20 * ((0:ℝ) - 5)))
      + -(20 * 20) * sigmoid (20 * ((0:ℝ) - 7)) * (1 - sigmoid (20 * ((0:ℝ) - 7))) := by
    rw [hHdef, hpair]
  have hG1 : -13e-29 ≤ G := by rw [hGv]; nlinarith
  have hG2 : G ≤ 0 := by rw [hGv]; nlinarith
  have hH1 : -1 - 82e-28 ≤ H := by rw [hHv]; nlinarith
  have hH2 : H ≤ -1 := by rw [hHv]; nlinarith
  have hHne : H ≠ 0 := by intro h0; rw [h0] at hH2; linarith
  have hstep1 : 0 ≤ G / H := div_nonneg_iff.mpr (Or.inr ⟨hG2, by linarith⟩)
  have hstep2 : G / H ≤ 13e-29 := by
    rw [div_le_iff_of_neg (by linarith : H < 0)]
    nlinarith
  have hsmall : |G / H| < 1e-8 := by
    rw [abs_of_nonneg hstep1]
    linarith
  have hrun : estimate_theta_map [false, false] [5, 7] [20, 20] = 0 - G / H := by
    rw [estimate_theta_map, if_neg (by simp), newtonGo]
    simp only [← hGdef, ← hHdef]
    rw [if_pos hsmall]
  rw [hrun]
  linarith

/-- C5 counterexample: for the non-empty pattern `[False, False]` with
difficulties `[5, 7]` (inside the `[-10, 10]` range `solve_difficulty`
produces) and positive discriminations `[20, 20]`, flipping the first answer
from `False` to `True` *decreases* the value returned by
`estimate_theta_map` from ≈ 0 to ≈ -20: the flipped run never meets the
`1e-8` early-stopping tolerance and ends mid two-cycle after its 40
iterations.  Every sigmoid argument along both runs lies in `[-540, 540]`,
where `math.exp` is finite in the source's float arithmetic, so no
overflow path is entered. -/
theorem estimate_theta_map_not_monotone :
    estimate_theta_map [true, false] [5, 7] [20, 20]
      < estimate_theta_map [false, false] [5, 7] [20, 20] :=
  lt_of_le_of_lt flip_run_value (lt_of_lt_of_le (by norm_num) base_run_value)

/-- Splitting the Newton accumulator fold into the initial value plus
per-item contributions. -/
theorem newton_fold_split (theta : ℝ) : ∀ (l : List (Bool × ℝ × ℝ)) (init : ℝ × ℝ),
    l.foldl
      (fun gh yba =>
        let p := sigmoid (yba.2.2 * (theta - yba.2.1))
        (gh.1 + yba.2.2 * ((if yba.1 then (1 : ℝ) else 0) - p),
         gh.2 + (-(yba.2.2 * yba.2.2) * p * (1 - p)))) init
    = (init.1 + (l.map (fun yba =>
          yba.2.2 * ((if yba.1 then (1 : ℝ) else 0)
            - sigmoid (yba.2.2 * (theta - yba.2.1))))).sum,
       init.2 + (l.map (fun yba =>
          -(yba.2.2 * yba.2.2) * sigmoid (yba.2.2 * (theta - yba.2.1))
            * (1 - sigmoid (yba.2.2 * (theta - yba.2.1))))).sum) := by
  intro l
  induction l with
  | nil => intro init; simp
  | cons yba l ih =>
    intro init
    rw [List.foldl_cons, ih]
    simp only [List.map_cons, List.sum_cons]
    rw [Prod.mk.injEq]
    constructor <;> ring

/-- `newtonUpdate` written as the initial accumulator plus per-item sums. -/
theorem newtonUpdate_eq_sums (answers : List Bool) (bs as : List ℝ) (theta : ℝ) :
    newtonUpdate answers bs as theta =
      (-theta + ((answers.zip (bs.zip as)).map (fun yba =>
          yba.2.2 * ((if yba.1 then (1 : ℝ) else 0)
            - sigmoid (yba.2.2 * (theta - yba.2.1))))).sum,
       -1 + ((answers.zip (bs.zip as)).map (fun yba =>
          -(yba.2.2 * yba.2.2) * sigmoid (yba.2.2 * (theta - yba.2.1))
            * (1 - sigmoid (yba.2.2 * (theta - yba.2.1))))).sum) := by
  unfold newtonUpdate
  rw [newton_fold_split]

/-- Setting one answer to `True` raises the per-item gradient contributions
pointwise and leaves the curvature contributions unchanged. -/
theorem zip_set_true_sums (theta : ℝ) :
    ∀ (answers : List Bool) (l : List (ℝ × ℝ)) (i : ℕ),
    (∀ p ∈ l, (0 : ℝ) ≤ p.2) →
    ((answers.zip l).map (fun yba =>
        yba.2.2 * ((if yba.1 then (1 : ℝ) else 0)
          - sigmoid (yba.2.2 * (theta - yba.2.1))))).sum
      ≤ (((answers.set i true).zip l).map (fun yba =>
        yba.2.2 * ((if yba.1 then (1 : ℝ) else 0)
          - sigmoid (yba.2.2 * (theta - yba.2.1))))).sum ∧
    (((answers.set i true).zip l).map (fun yba =>
        -(yba.2.2 * yba.2.2) * sigmoid (yba.2.2 * (theta - yba.2.1))
          * (1 - sigmoid (yba.2.2 * (theta - yba.2.1))))).sum
      = ((answers.zip l).map (fun yba =>
        -(yba.2.2 * yba.2.2) * sigmoid (yba.2.2 * (theta - yba.2.1))
          * (1 - sigmoid (yba.2.2 * (theta - yba.2.1))))).sum := by
  intro answers
  induction answers with
  | nil =>
    intro l i _
    simp [List.set]
  | cons y ys ih =>
    intro l i hl
    rcases l with _ | ⟨p, l⟩
    · simp
    have hp : (0 : ℝ) ≤ p.2 := hl p (List.mem_cons_self p l)
    have hl' : ∀ q ∈ l, (0 : ℝ) ≤ q.2 := fun q hq => hl q (List.mem_cons_of_mem p hq)
    rcases i with _ | i
    · rcases y with _ | _
      · simp only [List.set, List.zip_cons_cons, List.map_cons, List.sum_cons]
        have hsp := sigmoid_pos (p.2 * (theta - p.1))
        have hsl := sigmoid_lt_one (p.2 * (theta - p.1))
        have hp1 : 0 ≤ p.2 * sigmoid (p.2 * (theta - p.1)) := mul_nonneg hp hsp.le
        have hp2 : 0 ≤ p.2 * (1 - sigmoid (p.2 * (theta - p.1))) :=
          mul_nonneg hp (by linarith)
        constructor
        · norm_num
          exact le_trans (neg_nonpos_of_nonneg hp1) hp2
        · norm_num
      · simp only [List.set]
        exact ⟨le_refl _, trivial⟩
    · simp only [List.set, List.zip_cons_cons, List.map_cons, List.sum_cons]
      obtain ⟨h1, h2⟩ := ih l i hl'
      constructor
      · linarith
      · linarith

/-- Setting one answer to `True` leaves the curvature unchanged and does not
decrease the gradient, provided the discriminations are nonnegative. -/
theorem newtonUpdate_set_true (theta : ℝ) (answers : List Bool) (bs as : List ℝ)
    (i : ℕ) (has : ∀ a ∈ as, (0 : ℝ) ≤ a) :
    (newtonUpdate answers bs as theta).1
        ≤ (newtonUpdate (answers.set i true) bs as theta).1 ∧
      (newtonUpdate (answers.set i true) bs as theta).2
        = (newtonUpdate answers bs as theta).2 := by
  have hzip : ∀ p ∈ bs.zip as, (0 : ℝ) ≤ p.2 := by
    intro p hp
    exact has p.2 (List.of_mem_zip hp).2
  obtain ⟨h1, h2⟩ := zip_set_true_sums theta answers (bs.zip as) i hzip
  rw [newtonUpdate_eq_sums, newtonUpdate_eq_sums]
  constructor
  · simp only
    linarith
  · simp only
    linarith

/-- C5, amended: changing any single answer to `True` (in particular
flipping a `False` to `True`) does not decrease the *first* Newton update
`theta1` computed by `estimate_theta_map` when the discriminations are
nonnegative; but, per `estimate_theta_map_not_monotone`, the value returned
after the full early-stopped 40-iteration loop is not monotone in the
answers. -/
theorem theta1_set_true_mono (answers : List Bool) (bs as : List ℝ) (i : ℕ)
    (has : ∀ a ∈ as, (0 : ℝ) ≤ a) :
    theta1 answers bs as ≤ theta1 (answers.set i true) bs as := by
  obtain ⟨hG, hH⟩ := newtonUpdate_set_true 0 answers bs as i has
  have hHle : (newtonUpdate answers bs as 0).2 ≤ -1 := by
    unfold newtonUpdate
    exact newton_fold_snd_le 0 _ (-0, -1)
  unfold theta1
  rw [hH]
  have hHneg : (newtonUpdate answers bs as 0).2 < 0 := by linarith
  rw [zero_sub, zero_sub, neg_le_neg_iff, div_eq_mul_inv, div_eq_mul_inv]
  exact mul_le_mul_of_nonpos_right hG (inv_nonpos.mpr hHneg.le)

/-- Witness for the amended C5 at `answers = [false]`, `bs = [0]`,
`as = [1]`, `i = 0`. -/
theorem theta1_set_true_mono_witness :
    theta1 [false] [0] [1] ≤ theta1 ([false].set 0 true) [0] [1] :=
  theta1_set_true_mono [false] [0] [1] 0 (by
    intro a ha
    simp at ha
    simp [ha])

/-! ## C1: the calibration round-trip

For every target probability `p ∈ (0,1)`, with `a` the clamped
discrimination and `b = solve_difficulty p a`, the quadrature estimate
`expect_sigmoid a b` reproduces `p` to within `1e-6`.  The proof follows the
bisection: either the root stays bracketed (and the bracket width after 80
halvings is `20/2^80`), or an endpoint never moved, which forces `p` so
close to 0 or 1 that the discrimination clamps to `2.25` and the expectation
at the stuck endpoint is itself within `1e-6` of the relevant boundary. -/

theorem sqrt_two_lb : (1.4142135 : ℝ) ≤ Real.sqrt 2 := by
  have h : (1.4142135 : ℝ) ^ 2 < 2 := by norm_num
  exact ((Real.lt_sqrt (by norm_num)).mpr h).le

theorem sqrt_two_ub : Real.sqrt 2 ≤ (1.4142136 : ℝ) := by
  have h : (2 : ℝ) < 1.4142136 ^ 2 := by norm_num
  exact ((Real.sqrt_lt' (by norm_num)).mpr h).le

theorem sqrt_pi_lb : (1.772453 : ℝ) ≤ Real.sqrt Real.pi := by
  have h : (1.772453 : ℝ) ^ 2 < Real.pi := by
    nlinarith [Real.pi_gt_3141592]
  exact ((Real.lt_sqrt (by norm_num)).mpr h).le

theorem sqrt_pi_ub : Real.sqrt Real.pi ≤ (1.772454 : ℝ) := by
  have h : Real.pi < (1.772454 : ℝ) ^ 2 := by
    nlinarith [Real.pi_lt_3141593]
  exact ((Real.sqrt_lt' (by norm_num)).mpr h).le

/-- `(2.7182818283)^n` is a lower bound for `exp n`. -/
theorem exp_nat_lb (n : ℕ) : (2.7182818283 : ℝ) ^ n ≤ Real.exp n := by
  have h1 : Real.exp ((n : ℝ)) = Real.exp 1 ^ n := by
    rw [← Real.exp_nat_mul, mul_one]
  rw [h1]
  exact pow_le_pow_left (by norm_num) Real.exp_one_gt_d9.le n

/-- Generic sigmoid lower bound from an integer bound on the argument. -/
theorem sigmoid_ge_inv {z : ℝ} (n : ℕ) (M : ℝ) (hM : 0 < M)
    (hMn : M ≤ (2.7182818283 : ℝ) ^ n) (hz : (n : ℝ) ≤ z) :
    1 - 1 / M ≤ sigmoid z := by
  have h1 : 1 - sigmoid z ≤ Real.exp (-z) := one_sub_sigmoid_le_exp z
  have h2 : Real.exp (-z) ≤ Real.exp (-(n : ℝ)) := Real.exp_le_exp.mpr (by linarith)
  have h3 : Real.exp (-(n : ℝ)) = (Real.exp (n : ℝ))⁻¹ := Real.exp_neg _
  have h4 : M ≤ Real.exp (n : ℝ) := le_trans hMn (exp_nat_lb n)
  have h5 : (Real.exp (n : ℝ))⁻¹ ≤ M⁻¹ := inv_le_inv_of_le hM h4
  have h6 : (M)⁻¹ = 1 / M := (one_div M).symm
  rw [h3] at h2
  rw [h6] at h5
  linarith

/-- Generic sigmoid upper bound from an integer bound on the argument. -/
theorem sigmoid_le_inv {z : ℝ} (n : ℕ) (M : ℝ) (hM : 0 < M)
    (hMn : M ≤ (2.7182818283 : ℝ) ^ n) (hz : z ≤ -(n : ℝ)) :
    sigmoid z ≤ 1 / M := by
  have h1 : sigmoid z ≤ Real.exp z := sigmoid_le_exp z
  have h2 : Real.exp z ≤ Real.exp (-(n : ℝ)) := Real.exp_le_exp.mpr hz
  have h3 : Real.exp (-(n : ℝ)) = (Real.exp (n : ℝ))⁻¹ := Real.exp_neg _
  have h4 : M ≤ Real.exp (n : ℝ) := le_trans hMn (exp_nat_lb n)
  have h5 : (Real.exp (n : ℝ))⁻¹ ≤ M⁻¹ := inv_le_inv_of_le hM h4
  have h6 : (M)⁻¹ = 1 / M := (one_div M).symm
  rw [h3] at h2
  rw [h6] at h5
  linarith

/-- `76 ≤ exp 4.4`, via `exp 4 · exp 0.4`. -/
theorem exp_44_lb : (76 : ℝ) ≤ Real.exp 4.4 := by
  have h1 : Real.exp (4.4 : ℝ) = Real.exp 4 * Real.exp 0.4 := by
    rw [← Real.exp_add]
    norm_num
  have h2 : (54.59 : ℝ) ≤ Real.exp 4 := by
    have h3 := exp_nat_lb 4
    have h4 : ((4 : ℕ) : ℝ) = (4 : ℝ) := by norm_num
    rw [h4] at h3
    nlinarith
  have h5 : (1.4 : ℝ) ≤ Real.exp 0.4 := by
    have := Real.add_one_le_exp (0.4 : ℝ)
    linarith
  have h6 : (0 : ℝ) < Real.exp 0.4 := Real.exp_pos _
  rw [h1]
  nlinarith

theorem sigmoid_ge_44 {z : ℝ} (hz : (4.4 : ℝ) ≤ z) : 1 - 1 / 76 ≤ sigmoid z := by
  have h1 : 1 - sigmoid z ≤ Real.exp (-z) := one_sub_sigmoid_le_exp z
  have h2 : Real.exp (-z) ≤ Real.exp (-(4.4 : ℝ)) := Real.exp_le_exp.mpr (by linarith)
  have h3 : Real.exp (-(4.4 : ℝ)) = (Real.exp (4.4 : ℝ))⁻¹ := Real.exp_neg _
  have h5 : (Real.exp (4.4 : ℝ))⁻¹ ≤ (76 : ℝ)⁻¹ := inv_le_inv_of_le (by norm_num) exp_44_lb
  rw [h3] at h2
  have : (76 : ℝ)⁻¹ = 1 / 76 := by norm_num
  rw [this] at h5
  linarith

theorem sigmoid_le_44 {z : ℝ} (hz : z ≤ -(4.4 : ℝ)) : sigmoid z ≤ 1 / 76 := by
  have h1 : sigmoid z ≤ Real.exp z := sigmoid_le_exp z
  have h2 : Real.exp z ≤ Real.exp (-(4.4 : ℝ)) := Real.exp_le_exp.mpr hz
  have h3 : Real.exp (-(4.4 : ℝ)) = (Real.exp (4.4 : ℝ))⁻¹ := Real.exp_neg _
  have h5 : (Real.exp (4.4 : ℝ))⁻¹ ≤ (76 : ℝ)⁻¹ := inv_le_inv_of_le (by norm_num) exp_44_lb
  rw [h3] at h2
  have : (76 : ℝ)⁻¹ = 1 / 76 := by norm_num
  rw [this] at h5
  linarith

/-- `sigmoid` is 1-Lipschitz. -/
theorem sigmoid_lip {u v : ℝ} (h : v ≤ u) : sigmoid u - sigmoid v ≤ u - v := by
  have hA := Real.exp_pos (-u)
  have hB := Real.exp_pos (-v)
  have hAB : Real.exp (-u) = Real.exp (-v) * Real.exp (-(u - v)) := by
    rw [← Real.exp_add]
    ring_nf
  have hC : 1 - Real.exp (-(u - v)) ≤ u - v := by
    have := Real.add_one_le_exp (-(u - v))
    linarith
  have hCpos := Real.exp_pos (-(u - v))
  have key : sigmoid u - sigmoid v
      = (Real.exp (-v) - Real.exp (-u)) /
        ((1 + Real.exp (-u)) * (1 + Real.exp (-v))) := by
    unfold sigmoid
    field_simp
  rw [key, div_le_iff (by positivity)]
  have h2 : Real.exp (-v) - Real.exp (-u) ≤ Real.exp (-v) * (u - v) := by
    rw [hAB]
    nlinarith
  nlinarith [mul_nonneg (sub_nonneg.mpr h) hA.le,
    mul_nonneg (sub_nonneg.mpr h) (mul_nonneg hA.le hB.le),
    mul_nonneg (sub_nonneg.mpr h) hB.le]

/-- The quadrature sum written out over the 20 explicit nodes. -/
theorem quad_sum_expand (a b : ℝ) :
    ((HERMITE_X.zip HERMITE_W).map
      (fun xw => xw.2 * sigmoid (a * (Real.sqrt 2 * xw.1 - b)))).sum =
      2.229393645534151e-13 * sigmoid (a * (Real.sqrt 2 * (-5.387480890011232) - b))
      + 4.39934099227318e-10 * sigmoid (a * (Real.sqrt 2 * (-4.603682449550744) - b))
      + 1.086069370769281e-07 * sigmoid (a * (Real.sqrt 2 * (-3.944764040115625) - b))
      + 7.802556478532063e-06 * sigmoid (a * (Real.sqrt 2 * (-3.347854567383216) - b))
      + 0.000228338636016353 * sigmoid (a * (Real.sqrt 2 * (-2.78880605842813) - b))
      + 0.003243773342237861 * sigmoid (a * (Real.sqrt 2 * (-2.254974002089275) - b))
      + 0.02481052088746359 * sigmoid (a * (Real.sqrt 2 * (-1.738537712116585) - b))
      + 0.109017206020023 * sigmoid (a * (Real.sqrt 2 * (-1.234076215395323) - b))
      + 0.2866755053628341 * sigmoid (a * (Real.sqrt 2 * (-0.737473728545394) - b))
      + 0.4622436696006101 * sigmoid (a * (Real.sqrt 2 * (-0.245340708300901) - b))
      + 0.4622436696006101 * sigmoid (a * (Real.sqrt 2 * 0.245340708300901 - b))
      + 0.2866755053628341 * sigmoid (a * (Real.sqrt 2 * 0.737473728545394 - b))
      + 0.109017206020023 * sigmoid (a * (Real.sqrt 2 * 1.234076215395323 - b))
      + 0.02481052088746359 * sigmoid (a * (Real.sqrt 2 * 1.738537712116585 - b))
      + 0.003243773342237861 * sigmoid (a * (Real.sqrt 2 * 2.254974002089275 - b))
      + 0.000228338636016353 * sigmoid (a * (Real.sqrt 2 * 2.78880605842813 - b))
      + 7.802556478532063e-06 * sigmoid (a * (Real.sqrt 2 * 3.347854567383216 - b))
      + 1.086069370769281e-07 * sigmoid (a * (Real.sqrt 2 * 3.944764040115625 - b))
      + 4.39934099227318e-10 * sigmoid (a * (Real.sqrt 2 * 4.603682449550744 - b))
      + 2.229393645534151e-13 * sigmoid (a * (Real.sqrt 2 * 5.387480890011232 - b)) := by
  simp only [HERMITE_X, HERMITE_W, List.zip_cons_cons, List.zip_nil_right,
    List.map_cons, List.map_nil, List.sum_cons, List.sum_nil]
  ring

theorem s2_ge_of_neg {x c : ℝ} (hx : x ≤ 0) (h : c ≤ 1.4142136 * x) :
    c ≤ Real.sqrt 2 * x := by
  nlinarith [sqrt_two_ub, mul_le_mul_of_nonpos_right sqrt_two_ub hx]

theorem s2_ge_of_pos {x c : ℝ} (hx : 0 ≤ x) (hc : c ≤ 0) :
    c ≤ Real.sqrt 2 * x := by
  nlinarith [Real.sqrt_nonneg 2, mul_nonneg (Real.sqrt_nonneg 2) hx]

theorem s2_le_of_pos {x c : ℝ} (hx : 0 ≤ x) (h : 1.4142136 * x ≤ c) :
    Real.sqrt 2 * x ≤ c := by
  nlinarith [sqrt_two_ub, mul_le_mul_of_nonneg_right sqrt_two_ub hx]

theorem s2_le_of_neg {x c : ℝ} (hx : x ≤ 0) (hc : 0 ≤ c) :
    Real.sqrt 2 * x ≤ c := by
  nlinarith [Real.sqrt_nonneg 2, mul_nonneg (Real.sqrt_nonneg 2) (neg_nonneg.mpr hx)]

theorem term_ge_225 (x w c : ℝ) (n : ℕ) (M : ℝ) {b : ℝ}
    (hb : b ≤ -(9.9 : ℝ)) (hw : 0 ≤ w) (hx : c ≤ Real.sqrt 2 * x)
    (hM : 0 < M) (hMn : M ≤ (2.7182818283 : ℝ) ^ n)
    (hn : (n : ℝ) ≤ 2.25 * (c + 9.9)) :
    w * (1 - 1 / M) ≤ w * sigmoid ((2.25 : ℝ) * (Real.sqrt 2 * x - b)) := by
  refine mul_le_mul_of_nonneg_left ?_ hw
  refine sigmoid_ge_inv n M hM hMn ?_
  linarith

theorem term_le_225 (x w c : ℝ) (n : ℕ) (M : ℝ) {b : ℝ}
    (hb : (9.9 : ℝ) ≤ b) (hw : 0 ≤ w) (hx : Real.sqrt 2 * x ≤ c)
    (hM : 0 < M) (hMn : M ≤ (2.7182818283 : ℝ) ^ n)
    (hn : (n : ℝ) ≤ 2.25 * (9.9 - c)) :
    w * sigmoid ((2.25 : ℝ) * (Real.sqrt 2 * x - b)) ≤ w * (1 / M) := by
  refine mul_le_mul_of_nonneg_left ?_ hw
  refine sigmoid_le_inv n M hM hMn ?_
  linarith

theorem term_ge_wide {a b : ℝ} (x w : ℝ) (ha1 : (0.75 : ℝ) ≤ a)
    (ha2 : a ≤ (2.25 : ℝ)) (hb : b ≤ -(9.9 : ℝ)) (hw : 0 ≤ w)
    (hx : -(3.9441 : ℝ) ≤ Real.sqrt 2 * x) :
    w * (1 - 1 / 76) ≤ w * sigmoid (a * (Real.sqrt 2 * x - b)) := by
  refine mul_le_mul_of_nonneg_left ?_ hw
  refine sigmoid_ge_44 ?_
  nlinarith [mul_nonneg (by linarith : (0 : ℝ) ≤ a - 0.75)
    (by linarith : (0 : ℝ) ≤ Real.sqrt 2 * x - b - 5.9559)]

theorem term_le_wide {a b : ℝ} (x w : ℝ) (ha1 : (0.75 : ℝ) ≤ a)
    (ha2 : a ≤ (2.25 : ℝ)) (hb : (9.9 : ℝ) ≤ b) (hw : 0 ≤ w)
    (hx : Real.sqrt 2 * x ≤ (3.9441 : ℝ)) :
    w * sigmoid (a * (Real.sqrt 2 * x - b)) ≤ w * (1 / 76) := by
  refine mul_le_mul_of_nonneg_left ?_ hw
  refine sigmoid_le_44 ?_
  nlinarith [mul_nonneg (by linarith : (0 : ℝ) ≤ a - 0.75)
    (by linarith : (0 : ℝ) ≤ -(Real.sqrt 2 * x - b) - 5.9559)]

theorem term_pos (a b x w : ℝ) (hw : 0 ≤ w) :
    0 ≤ w * sigmoid (a * (Real.sqrt 2 * x - b)) :=
  mul_nonneg hw (sigmoid_pos _).le

theorem term_le_w (a b x w : ℝ) (hw : 0 ≤ w) :
    w * sigmoid (a * (Real.sqrt 2 * x - b)) ≤ w := by
  have h := mul_le_mul_of_nonneg_left (sigmoid_lt_one (a * (Real.sqrt 2 * x - b))).le hw
  rwa [mul_one] at h

theorem term_lip_bound {a b1 b2 : ℝ} (x w : ℝ) (h0 : 0 ≤ a) (h2 : a ≤ 2.25)
    (h12 : b1 ≤ b2) (hd : b2 - b1 ≤ 20 / 2 ^ 80) (hw : 0 ≤ w) :
    w * sigmoid (a * (Real.sqrt 2 * x - b1)) - w * sigmoid (a * (Real.sqrt 2 * x - b2))
      ≤ w * (2.25 * (20 / 2 ^ 80)) := by
  have hargs : a * (Real.sqrt 2 * x - b2) ≤ a * (Real.sqrt 2 * x - b1) :=
    mul_le_mul_of_nonneg_left (by linarith) h0
  have h3 := sigmoid_lip hargs
  have h4 : a * (Real.sqrt 2 * x - b1) - a * (Real.sqrt 2 * x - b2) = a * (b2 - b1) := by
    ring
  have h5 : a * (b2 - b1) ≤ 2.25 * (20 / 2 ^ 80) := by
    nlinarith [mul_nonneg (by linarith : (0 : ℝ) ≤ 2.25 - a)
      (by linarith : (0 : ℝ) ≤ b2 - b1)]
  rw [← mul_sub]
  refine le_trans (mul_le_mul_of_nonneg_left ?_ hw) (le_refl _)
  linarith

theorem div_sqrtpi_lb {S c : ℝ} (hc : 0 ≤ c) (h : c ≤ S) :
    c / 1.772454 ≤ S / Real.sqrt Real.pi := by
  have h0 : (0 : ℝ) < Real.sqrt Real.pi := by
    have := sqrt_pi_lb
    linarith
  exact div_le_div (by linarith) h h0 sqrt_pi_ub

theorem div_sqrtpi_ub {S c : ℝ} (hc : 0 ≤ c) (h : S ≤ c) :
    S / Real.sqrt Real.pi ≤ c / 1.772453 := by
  exact div_le_div hc h (by norm_num) sqrt_pi_lb

/-- With `a = 2.25` and `b ≤ -9.9` the expectation is within `3e-7` of 1. -/
theorem expect_lb_225 {b : ℝ} (hb : b ≤ -(9.9 : ℝ)) :
    (1 - 3e-7 : ℝ) ≤ expect_sigmoid 2.25 b := by
  unfold expect_sigmoid
  rw [quad_sum_expand]
  have h1 := term_ge_225 (-5.387480890011232) 2.229393645534151e-13 (-7.6191) 5 148 hb (by norm_num)
    (s2_ge_of_neg (by norm_num) (by norm_num)) (by norm_num) (by norm_num) (by norm_num)
  have h2 := term_ge_225 (-4.603682449550744) 4.39934099227318e-10 (-7.6191) 5 148 hb (by norm_num)
    (s2_ge_of_neg (by norm_num) (by norm_num)) (by norm_num) (by norm_num) (by norm_num)
  have h3 := term_ge_225 (-3.944764040115625) 1.086069370769281e-07 (-7.6191) 5 148 hb (by norm_num)
    (s2_ge_of_neg (by norm_num) (by norm_num)) (by norm_num) (by norm_num) (by norm_num)
  have h4 := term_ge_225 (-3.347854567383216) 7.802556478532063e-06 (-7.6191) 5 148 hb (by norm_num)
    (s2_ge_of_neg (by norm_num) (by norm_num)) (by norm_num) (by norm_num) (by norm_num)
  have h5 := term_ge_225 (-2.78880605842813) 0.000228338636016353 (-3.9441) 13 441000 hb (by norm_num)
    (s2_ge_of_neg (by norm_num) (by norm_num)) (by norm_num) (by norm_num) (by norm_num)
  have h6 := term_ge_225 (-2.254974002089275) 0.003243773342237861 (-3.9441) 13 441000 hb (by norm_num)
    (s2_ge_of_neg (by norm_num) (by norm_num)) (by norm_num) (by norm_num) (by norm_num)
  have h7 := term_ge_225 (-1.738537712116585) 0.02481052088746359 (-2.4587) 16 8800000 hb (by norm_num)
    (s2_ge_of_neg (by norm_num) (by norm_num)) (by norm_num) (by norm_num) (by norm_num)
  have h8 := term_ge_225 (-1.234076215395323) 0.109017206020023 (-2.4587) 16 8800000 hb (by norm_num)
    (s2_ge_of_neg (by norm_num) (by norm_num)) (by norm_num) (by norm_num) (by norm_num)
  have h9 := term_ge_225 (-0.737473728545394) 0.2866755053628341 (-2.4587) 16 8800000 hb (by norm_num)
    (s2_ge_of_neg (by norm_num) (by norm_num)) (by norm_num) (by norm_num) (by norm_num)
  have h10 := term_ge_225 (-0.245340708300901) 0.4622436696006101 (-2.4587) 16 8800000 hb (by norm_num)
    (s2_ge_of_neg (by norm_num) (by norm_num)) (by norm_num) (by norm_num) (by norm_num)
  have h11 := term_ge_225 0.245340708300901 0.4622436696006101 (-2.4587) 16 8800000 hb (by norm_num)
    (s2_ge_of_pos (by norm_num) (by norm_num)) (by norm_num) (by norm_num) (by norm_num)
  have h12 := term_ge_225 0.737473728545394 0.2866755053628341 (-2.4587) 16 8800000 hb (by norm_num)
    (s2_ge_of_pos (by norm_num) (by norm_num)) (by norm_num) (by norm_num) (by norm_num)
  have h13 := term_ge_225 1.234076215395323 0.109017206020023 (-2.4587) 16 8800000 hb (by norm_num)
    (s2_ge_of_pos (by norm_num) (by norm_num)) (by norm_num) (by norm_num) (by norm_num)
  have h14 := term_ge_225 1.738537712116585 0.02481052088746359 (-2.4587) 16 8800000 hb (by norm_num)
    (s2_ge_of_pos (by norm_num) (by norm_num)) (by norm_num) (by norm_num) (by norm_num)
  have h15 := term_ge_225 2.254974002089275 0.003243773342237861 (-3.9441) 13 441000 hb (by norm_num)
    (s2_ge_of_pos (by norm_num) (by norm_num)) (by norm_num) (by norm_num) (by norm_num)
  have h16 := term_ge_225 2.78880605842813 0.000228338636016353 (-3.9441) 13 441000 hb (by norm_num)
    (s2_ge_of_pos (by norm_num) (by norm_num)) (by norm_num) (by norm_num) (by norm_num)
  have h17 := term_ge_225 3.347854567383216 7.802556478532063e-06 (-7.6191) 5 148 hb (by norm_num)
    (s2_ge_of_pos (by norm_num) (by norm_num)) (by norm_num) (by norm_num) (by norm_num)
  have h18 := term_ge_225 3.944764040115625 1.086069370769281e-07 (-7.6191) 5 148 hb (by norm_num)
    (s2_ge_of_pos (by norm_num) (by norm_num)) (by norm_num) (by norm_num) (by norm_num)
  have h19 := term_ge_225 4.603682449550744 4.39934099227318e-10 (-7.6191) 5 148 hb (by norm_num)
    (s2_ge_of_pos (by norm_num) (by norm_num)) (by norm_num) (by norm_num) (by norm_num)
  have h20 := term_ge_225 5.387480890011232 2.229393645534151e-13 (-7.6191) 5 148 hb (by norm_num)
    (s2_ge_of_pos (by norm_num) (by norm_num)) (by norm_num) (by norm_num) (by norm_num)
  refine le_trans (by norm_num) (div_sqrtpi_lb (by norm_num : (0:ℝ) ≤ 1.7724535) ?_)
  linarith

/-- With `a = 2.25` and `b ≥ 9.9` the expectation is below `2e-7`. -/
theorem expect_ub_225 {b : ℝ} (hb : (9.9 : ℝ) ≤ b) :
    expect_sigmoid 2.25 b ≤ (2e-7 : ℝ) := by
  unfold expect_sigmoid
  rw [quad_sum_expand]
  have h1 := term_le_225 (-5.387480890011232) 2.229393645534151e-13 7.6191 5 148 hb (by norm_num)
    (s2_le_of_neg (by norm_num) (by norm_num)) (by norm_num) (by norm_num) (by norm_num)
  have h2 := term_le_225 (-4.603682449550744) 4.39934099227318e-10 7.6191 5 148 hb (by norm_num)
    (s2_le_of_neg (by norm_num) (by norm_num)) (by norm_num) (by norm_num) (by norm_num)
  have h3 := term_le_225 (-3.944764040115625) 1.086069370769281e-07 7.6191 5 148 hb (by norm_num)
    (s2_le_of_neg (by norm_num) (by norm_num)) (by norm_num) (by norm_num) (by norm_num)
  have h4 := term_le_225 (-3.347854567383216) 7.802556478532063e-06 7.6191 5 148 hb (by norm_num)
    (s2_le_of_neg (by norm_num) (by norm_num)) (by norm_num) (by norm_num) (by norm_num)
  have h5 := term_le_225 (-2.78880605842813) 0.000228338636016353 3.9441 13 441000 hb (by norm_num)
    (s2_le_of_neg (by norm_num) (by norm_num)) (by norm_num) (by norm_num) (by norm_num)
  have h6 := term_le_225 (-2.254974002089275) 0.003243773342237861 3.9441 13 441000 hb (by norm_num)
    (s2_le_of_neg (by norm_num) (by norm_num)) (by norm_num) (by norm_num) (by norm_num)
  have h7 := term_le_225 (-1.738537712116585) 0.02481052088746359 2.4587 16 8800000 hb (by norm_num)
    (s2_le_of_neg (by norm_num) (by norm_num)) (by norm_num) (by norm_num) (by norm_num)
  have h8 := term_le_225 (-1.234076215395323) 0.109017206020023 2.4587 16 8800000 hb (by norm_num)
    (s2_le_of_neg (by norm_num) (by norm_num)) (by norm_num) (by norm_num) (by norm_num)
  have h9 := term_le_225 (-0.737473728545394) 0.2866755053628341 2.4587 16 8800000 hb (by norm_num)
    (s2_le_of_neg (by norm_num) (by norm_num)) (by norm_num) (by norm_num) (by norm_num)
  have h10 := term_le_225 (-0.245340708300901) 0.4622436696006101 2.4587 16 8800000 hb (by norm_num)
    (s2_le_of_neg (by norm_num) (by norm_num)) (by norm_num) (by norm_num) (by norm_num)
  have h11 := term_le_225 0.245340708300901 0.4622436696006101 2.4587 16 8800000 hb (by norm_num)
    (s2_le_of_pos (by norm_num) (by norm_num)) (by norm_num) (by norm_num) (by norm_num)
  have h12 := term_le_225 0.737473728545394 0.2866755053628341 2.4587 16 8800000 hb (by norm_num)
    (s2_le_of_pos (by norm_num) (by norm_num)) (by norm_num) (by norm_num) (by norm_num)
  have h13 := term_le_225 1.234076215395323 0.109017206020023 2.4587 16 8800000 hb (by norm_num)
    (s2_le_of_pos (by norm_num) (by norm_num)) (by norm_num) (by norm_num) (by norm_num)
  have h14 := term_le_225 1.738537712116585 0.02481052088746359 2.4587 16 8800000 hb (by norm_num)
    (s2_le_of_pos (by norm_num) (by norm_num)) (by norm_num) (by norm_num) (by norm_num)
  have h15 := term_le_225 2.254974002089275 0.003243773342237861 3.9441 13 441000 hb (by norm_num)
    (s2_le_of_pos (by norm_num) (by norm_num)) (by norm_num) (by norm_num) (by norm_num)
  have h16 := term_le_225 2.78880605842813 0.000228338636016353 3.9441 13 441000 hb (by norm_num)
    (s2_le_of_pos (by norm_num) (by norm_num)) (by norm_num) (by norm_num) (by norm_num)
  have h17 := term_le_225 3.347854567383216 7.802556478532063e-06 7.6191 5 148 hb (by norm_num)
    (s2_le_of_pos (by norm_num) (by norm_num)) (by norm_num) (by norm_num) (by norm_num)
  have h18 := term_le_225 3.944764040115625 1.086069370769281e-07 7.6191 5 148 hb (by norm_num)
    (s2_le_of_pos (by norm_num) (by norm_num)) (by norm_num) (by norm_num) (by norm_num)
  have h19 := term_le_225 4.603682449550744 4.39934099227318e-10 7.6191 5 148 hb (by norm_num)
    (s2_le_of_pos (by norm_num) (by norm_num)) (by norm_num) (by norm_num) (by norm_num)
  have h20 := term_le_225 5.387480890011232 2.229393645534151e-13 7.6191 5 148 hb (by norm_num)
    (s2_le_of_pos (by norm_num) (by norm_num)) (by norm_num) (by norm_num) (by norm_num)
  refine le_trans (div_sqrtpi_ub (by norm_num : (0:ℝ) ≤ 3.3e-7) ?_) (by norm_num)
  linarith

/-- For any calibrated-range `a` and `b ≤ -9.9` the expectation exceeds `0.986`. -/
theorem expect_lb_wide {a b : ℝ} (ha1 : (0.75 : ℝ) ≤ a) (ha2 : a ≤ 2.25)
    (hb : b ≤ -(9.9 : ℝ)) : (0.986 : ℝ) ≤ expect_sigmoid a b := by
  unfold expect_sigmoid
  rw [quad_sum_expand]
  have h1 := term_pos a b (-5.387480890011232) 2.229393645534151e-13 (by norm_num)
  have h2 := term_pos a b (-4.603682449550744) 4.39934099227318e-10 (by norm_num)
  have h3 := term_pos a b (-3.944764040115625) 1.086069370769281e-07 (by norm_num)
  have h4 := term_pos a b (-3.347854567383216) 7.802556478532063e-06 (by norm_num)
  have h5 := term_ge_wide (-2.78880605842813) 0.000228338636016353 ha1 ha2 hb (by norm_num)
    (s2_ge_of_neg (by norm_num) (by norm_num))
  have h6 := term_ge_wide (-2.254974002089275) 0.003243773342237861 ha1 ha2 hb (by norm_num)
    (s2_ge_of_neg (by norm_num) (by norm_num))
  have h7 := term_ge_wide (-1.738537712116585) 0.02481052088746359 ha1 ha2 hb (by norm_num)
    (s2_ge_of_neg (by norm_num) (by norm_num))
  have h8 := term_ge_wide (-1.234076215395323) 0.109017206020023 ha1 ha2 hb (by norm_num)
    (s2_ge_of_neg (by norm_num) (by norm_num))
  have h9 := term_ge_wide (-0.737473728545394) 0.2866755053628341 ha1 ha2 hb (by norm_num)
    (s2_ge_of_neg (by norm_num) (by norm_num))
  have h10 := term_ge_wide (-0.245340708300901) 0.4622436696006101 ha1 ha2 hb (by norm_num)
    (s2_ge_of_neg (by norm_num) (by norm_num))
  have h11 := term_ge_wide 0.245340708300901 0.4622436696006101 ha1 ha2 hb (by norm_num)
    (s2_ge_of_pos (by norm_num) (by norm_num))
  have h12 := term_ge_wide 0.737473728545394 0.2866755053628341 ha1 ha2 hb (by norm_num)
    (s2_ge_of_pos (by norm_num) (by norm_num))
  have h13 := term_ge_wide 1.234076215395323 0.109017206020023 ha1 ha2 hb (by norm_num)
    (s2_ge_of_pos (by norm_num) (by norm_num))
  have h14 := term_ge_wide 1.738537712116585 0.02481052088746359 ha1 ha2 hb (by norm_num)
    (s2_ge_of_pos (by norm_num) (by norm_num))
  have h15 := term_ge_wide 2.254974002089275 0.003243773342237861 ha1 ha2 hb (by norm_num)
    (s2_ge_of_pos (by norm_num) (by norm_num))
  have h16 := term_ge_wide 2.78880605842813 0.000228338636016353 ha1 ha2 hb (by norm_num)
    (s2_ge_of_pos (by norm_num) (by norm_num))
  have h17 := term_pos a b 3.347854567383216 7.802556478532063e-06 (by norm_num)
  have h18 := term_pos a b 3.944764040115625 1.086069370769281e-07 (by norm_num)
  have h19 := term_pos a b 4.603682449550744 4.39934099227318e-10 (by norm_num)
  have h20 := term_pos a b 5.387480890011232 2.229393645534151e-13 (by norm_num)
  refine le_trans (by norm_num) (div_sqrtpi_lb (by norm_num : (0:ℝ) ≤ 1.749) ?_)
  linarith

/-- For any calibrated-range `a` and `b ≥ 9.9` the expectation is below `0.0133`. -/
theorem expect_ub_wide {a b : ℝ} (ha1 : (0.75 : ℝ) ≤ a) (ha2 : a ≤ 2.25)
    (hb : (9.9 : ℝ) ≤ b) : expect_sigmoid a b ≤ (0.0133 : ℝ) := by
  unfold expect_sigmoid
  rw [quad_sum_expand]
  have h1 := term_le_w a b (-5.387480890011232) 2.229393645534151e-13 (by norm_num)
  have h2 := term_le_w a b (-4.603682449550744) 4.39934099227318e-10 (by norm_num)
  have h3 := term_le_w a b (-3.944764040115625) 1.086069370769281e-07 (by norm_num)
  have h4 := term_le_w a b (-3.347854567383216) 7.802556478532063e-06 (by norm_num)
  have h5 := term_le_wide (-2.78880605842813) 0.000228338636016353 ha1 ha2 hb (by norm_num)
    (s2_le_of_neg (by norm_num) (by norm_num))
  have h6 := term_le_wide (-2.254974002089275) 0.003243773342237861 ha1 ha2 hb (by norm_num)
    (s2_le_of_neg (by norm_num) (by norm_num))
  have h7 := term_le_wide (-1.738537712116585) 0.02481052088746359 ha1 ha2 hb (by norm_num)
    (s2_le_of_neg (by norm_num) (by norm_num))
  have h8 := term_le_wide (-1.234076215395323) 0.109017206020023 ha1 ha2 hb (by norm_num)
    (s2_le_of_neg (by norm_num) (by norm_num))
  have h9 := term_le_wide (-0.737473728545394) 0.2866755053628341 ha1 ha2 hb (by norm_num)
    (s2_le_of_neg (by norm_num) (by norm_num))
  have h10 := term_le_wide (-0.245340708300901) 0.4622436696006101 ha1 ha2 hb (by norm_num)
    (s2_le_of_neg (by norm_num) (by norm_num))
  have h11 := term_le_wide 0.245340708300901 0.4622436696006101 ha1 ha2 hb (by norm_num)
    (s2_le_of_pos (by norm_num) (by norm_num))
  have h12 := term_le_wide 0.737473728545394 0.2866755053628341 ha1 ha2 hb (by norm_num)
    (s2_le_of_pos (by norm_num) (by norm_num))
  have h13 := term_le_wide 1.234076215395323 0.109017206020023 ha1 ha2 hb (by norm_num)
    (s2_le_of_pos (by norm_num) (by norm_num))
  have h14 := term_le_wide 1.738537712116585 0.02481052088746359 ha1 ha2 hb (by norm_num)
    (s2_le_of_pos (by norm_num) (by norm_num))
  have h15 := term_le_wide 2.254974002089275 0.003243773342237861 ha1 ha2 hb (by norm_num)
    (s2_le_of_pos (by norm_num) (by norm_num))
  have h16 := term_le_wide 2.78880605842813 0.000228338636016353 ha1 ha2 hb (by norm_num)
    (s2_le_of_pos (by norm_num) (by norm_num))
  have h17 := term_le_w a b 3.347854567383216 7.802556478532063e-06 (by norm_num)
  have h18 := term_le_w a b 3.944764040115625 1.086069370769281e-07 (by norm_num)
  have h19 := term_le_w a b 4.603682449550744 4.39934099227318e-10 (by norm_num)
  have h20 := term_le_w a b 5.387480890011232 2.229393645534151e-13 (by norm_num)
  refine le_trans (div_sqrtpi_ub (by norm_num : (0:ℝ) ≤ 0.0234) ?_) (by norm_num)
  linarith

/-- After 80 halvings the bracket is so small that the expectation moves by
less than `1e-7` across it. -/
theorem expect_lip_tiny {a b1 b2 : ℝ} (h0 : 0 ≤ a) (h2 : a ≤ 2.25)
    (h12 : b1 ≤ b2) (hd : b2 - b1 ≤ 20 / 2 ^ 80) :
    expect_sigmoid a b1 - expect_sigmoid a b2 ≤ (1e-7 : ℝ) := by
  unfold expect_sigmoid
  rw [div_sub_div_same, quad_sum_expand, quad_sum_expand]
  have t1 := term_lip_bound (a := a) (-5.387480890011232) 2.229393645534151e-13 h0 h2 h12 hd (by norm_num)
  have t2 := term_lip_bound (a := a) (-4.603682449550744) 4.39934099227318e-10 h0 h2 h12 hd (by norm_num)
  have t3 := term_lip_bound (a := a) (-3.944764040115625) 1.086069370769281e-07 h0 h2 h12 hd (by norm_num)
  have t4 := term_lip_bound (a := a) (-3.347854567383216) 7.802556478532063e-06 h0 h2 h12 hd (by norm_num)
  have t5 := term_lip_bound (a := a) (-2.78880605842813) 0.000228338636016353 h0 h2 h12 hd (by norm_num)
  have t6 := term_lip_bound (a := a) (-2.254974002089275) 0.003243773342237861 h0 h2 h12 hd (by norm_num)
  have t7 := term_lip_bound (a := a) (-1.738537712116585) 0.02481052088746359 h0 h2 h12 hd (by norm_num)
  have t8 := term_lip_bound (a := a) (-1.234076215395323) 0.109017206020023 h0 h2 h12 hd (by norm_num)
  have t9 := term_lip_bound (a := a) (-0.737473728545394) 0.2866755053628341 h0 h2 h12 hd (by norm_num)
  have t10 := term_lip_bound (a := a) (-0.245340708300901) 0.4622436696006101 h0 h2 h12 hd (by norm_num)
  have t11 := term_lip_bound (a := a) 0.245340708300901 0.4622436696006101 h0 h2 h12 hd (by norm_num)
  have t12 := term_lip_bound (a := a) 0.737473728545394 0.2866755053628341 h0 h2 h12 hd (by norm_num)
  have t13 := term_lip_bound (a := a) 1.234076215395323 0.109017206020023 h0 h2 h12 hd (by norm_num)
  have t14 := term_lip_bound (a := a) 1.738537712116585 0.02481052088746359 h0 h2 h12 hd (by norm_num)
  have t15 := term_lip_bound (a := a) 2.254974002089275 0.003243773342237861 h0 h2 h12 hd (by norm_num)
  have t16 := term_lip_bound (a := a) 2.78880605842813 0.000228338636016353 h0 h2 h12 hd (by norm_num)
  have t17 := term_lip_bound (a := a) 3.347854567383216 7.802556478532063e-06 h0 h2 h12 hd (by norm_num)
  have t18 := term_lip_bound (a := a) 3.944764040115625 1.086069370769281e-07 h0 h2 h12 hd (by norm_num)
  have t19 := term_lip_bound (a := a) 4.603682449550744 4.39934099227318e-10 h0 h2 h12 hd (by norm_num)
  have t20 := term_lip_bound (a := a) 5.387480890011232 2.229393645534151e-13 h0 h2 h12 hd (by norm_num)
  refine le_trans (div_sqrtpi_ub (by norm_num : (0:ℝ) ≤ 1e-22) ?_) (by norm_num)
  linarith

theorem expect_nonneg (a b : ℝ) : 0 ≤ expect_sigmoid a b := by
  unfold expect_sigmoid
  rw [quad_sum_expand]
  refine div_nonneg ?_ (Real.sqrt_nonneg _)
  have h1 := term_pos a b (-5.387480890011232) 2.229393645534151e-13 (by norm_num)
  have h2 := term_pos a b (-4.603682449550744) 4.39934099227318e-10 (by norm_num)
  have h3 := term_pos a b (-3.944764040115625) 1.086069370769281e-07 (by norm_num)
  have h4 := term_pos a b (-3.347854567383216) 7.802556478532063e-06 (by norm_num)
  have h5 := term_pos a b (-2.78880605842813) 0.000228338636016353 (by norm_num)
  have h6 := term_pos a b (-2.254974002089275) 0.003243773342237861 (by norm_num)
  have h7 := term_pos a b (-1.738537712116585) 0.02481052088746359 (by norm_num)
  have h8 := term_pos a b (-1.234076215395323) 0.109017206020023 (by norm_num)
  have h9 := term_pos a b (-0.737473728545394) 0.2866755053628341 (by norm_num)
  have h10 := term_pos a b (-0.245340708300901) 0.4622436696006101 (by norm_num)
  have h11 := term_pos a b 0.245340708300901 0.4622436696006101 (by norm_num)
  have h12 := term_pos a b 0.737473728545394 0.2866755053628341 (by norm_num)
  have h13 := term_pos a b 1.234076215395323 0.109017206020023 (by norm_num)
  have h14 := term_pos a b 1.738537712116585 0.02481052088746359 (by norm_num)
  have h15 := term_pos a b 2.254974002089275 0.003243773342237861 (by norm_num)
  have h16 := term_pos a b 2.78880605842813 0.000228338636016353 (by norm_num)
  have h17 := term_pos a b 3.347854567383216 7.802556478532063e-06 (by norm_num)
  have h18 := term_pos a b 3.944764040115625 1.086069370769281e-07 (by norm_num)
  have h19 := term_pos a b 4.603682449550744 4.39934099227318e-10 (by norm_num)
  have h20 := term_pos a b 5.387480890011232 2.229393645534151e-13 (by norm_num)
  linarith

/-- `expect_sigmoid` is antitone in `b` for nonnegative `a`. -/
theorem expect_anti {a : ℝ} (ha : 0 ≤ a) {b1 b2 : ℝ} (h : b1 ≤ b2) :
    expect_sigmoid a b2 ≤ expect_sigmoid a b1 := by
  unfold expect_sigmoid
  have hs : ((HERMITE_X.zip HERMITE_W).map
        (fun xw => xw.2 * sigmoid (a * (Real.sqrt 2 * xw.1 - b2)))).sum
      ≤ ((HERMITE_X.zip HERMITE_W).map
        (fun xw => xw.2 * sigmoid (a * (Real.sqrt 2 * xw.1 - b1)))).sum := by
    refine List.sum_le_sum ?_
    intro xw hxw
    refine mul_le_mul_of_nonneg_left ?_ (mem_nodes_weight_pos xw hxw).le
    refine sigmoid_mono ?_
    exact mul_le_mul_of_nonneg_left (by linarith) ha
  have h0 : (0 : ℝ) < Real.sqrt Real.pi := by
    have := sqrt_pi_lb
    linarith
  exact (div_le_div_right h0).mpr hs

/-- The quadrature estimate never exceeds `1.0000005` (the weights sum to
slightly less than `sqrt(pi)`). -/
theorem expect_ub_one (a b : ℝ) : expect_sigmoid a b ≤ (1.0000005 : ℝ) := by
  unfold expect_sigmoid
  rw [quad_sum_expand]
  have h1 := term_le_w a b (-5.387480890011232) 2.229393645534151e-13 (by norm_num)
  have h2 := term_le_w a b (-4.603682449550744) 4.39934099227318e-10 (by norm_num)
  have h3 := term_le_w a b (-3.944764040115625) 1.086069370769281e-07 (by norm_num)
  have h4 := term_le_w a b (-3.347854567383216) 7.802556478532063e-06 (by norm_num)
  have h5 := term_le_w a b (-2.78880605842813) 0.000228338636016353 (by norm_num)
  have h6 := term_le_w a b (-2.254974002089275) 0.003243773342237861 (by norm_num)
  have h7 := term_le_w a b (-1.738537712116585) 0.02481052088746359 (by norm_num)
  have h8 := term_le_w a b (-1.234076215395323) 0.109017206020023 (by norm_num)
  have h9 := term_le_w a b (-0.737473728545394) 0.2866755053628341 (by norm_num)
  have h10 := term_le_w a b (-0.245340708300901) 0.4622436696006101 (by norm_num)
  have h11 := term_le_w a b 0.245340708300901 0.4622436696006101 (by norm_num)
  have h12 := term_le_w a b 0.737473728545394 0.2866755053628341 (by norm_num)
  have h13 := term_le_w a b 1.234076215395323 0.109017206020023 (by norm_num)
  have h14 := term_le_w a b 1.738537712116585 0.02481052088746359 (by norm_num)
  have h15 := term_le_w a b 2.254974002089275 0.003243773342237861 (by norm_num)
  have h16 := term_le_w a b 2.78880605842813 0.000228338636016353 (by norm_num)
  have h17 := term_le_w a b 3.347854567383216 7.802556478532063e-06 (by norm_num)
  have h18 := term_le_w a b 3.944764040115625 1.086069370769281e-07 (by norm_num)
  have h19 := term_le_w a b 4.603682449550744 4.39934099227318e-10 (by norm_num)
  have h20 := term_le_w a b 5.387480890011232 2.229393645534151e-13 (by norm_num)
  refine le_trans (div_sqrtpi_ub (by norm_num : (0:ℝ) ≤ 1.77245386) ?_) (by norm_num)
  linarith

/-- Upper bound `exp 3 ≤ 20.09` from the decimal bound on `e`. -/
theorem e3_ub : Real.exp 3 ≤ (20.09 : ℝ) := by
  have h1 : Real.exp ((3 : ℕ) : ℝ) = Real.exp 1 ^ (3 : ℕ) := by
    rw [← Real.exp_nat_mul, mul_one]
  have h3 : Real.exp 1 ^ (3 : ℕ) ≤ (2.7182818286 : ℝ) ^ (3 : ℕ) :=
    pow_le_pow_left (Real.exp_pos 1).le Real.exp_one_lt_d9.le 3
  have h4 : Real.exp (3 : ℝ) = Real.exp ((3 : ℕ) : ℝ) := by norm_num
  rw [h4, h1]
  refine le_trans h3 (by norm_num)

/-- If the discrimination formula does not clamp at `2.25`, the target
probability is well inside `(0,1)`. -/
theorem p_bounds_of_unclamped {p : ℝ} (hp0 : 0 < p) (hp1 : p < 1)
    (hv : 0.75 + 0.5 * |logit p| < 2.25) :
    (0.0474 : ℝ) ≤ p ∧ p ≤ (0.9526 : ℝ) := by
  have habs : |logit p| < 3 := by linarith
  rw [abs_lt] at habs
  unfold logit at habs
  have hx : (0 : ℝ) < p / (1 - p) := div_pos hp0 (by linarith)
  have hub : p / (1 - p) < Real.exp 3 := (Real.log_lt_iff_lt_exp hx).mp habs.2
  have hlb : Real.exp (-3) < p / (1 - p) := (Real.lt_log_iff_exp_lt hx).mp habs.1
  rw [div_lt_iff (by linarith : (0 : ℝ) < 1 - p)] at hub
  rw [lt_div_iff (by linarith : (0 : ℝ) < 1 - p)] at hlb
  have hinv : (1 : ℝ) / 20.09 ≤ Real.exp (-3) := by
    rw [Real.exp_neg, one_div]
    exact inv_le_inv_of_le (Real.exp_pos 3) e3_ub
  constructor
  · have hm := mul_le_mul_of_nonneg_right hinv (by linarith : (0 : ℝ) ≤ 1 - p)
    linarith
  · have hm := mul_le_mul_of_nonneg_right e3_ub (by linarith : (0 : ℝ) ≤ 1 - p)
    linarith

theorem clamp_lb {v lo hi : ℝ} (h : lo ≤ hi) : lo ≤ clamp v lo hi :=
  le_min h (le_max_left _ _)

theorem clamp_ub (v lo hi : ℝ) : clamp v lo hi ≤ hi := min_le_left _ _

theorem clamp_eq_hi {v lo hi : ℝ} (h1 : lo ≤ v) (h2 : hi ≤ v) :
    clamp v lo hi = hi := by
  unfold clamp
  rw [max_eq_right h1, min_eq_left h2]

/-- One step of the bisection, written as an `if`. -/
theorem bisectStep_apply (p a : ℝ) (s : ℝ × ℝ) :
    bisectStep p a s = if p < expect_sigmoid a ((s.1 + s.2) / 2)
      then ((s.1 + s.2) / 2, s.2) else (s.1, (s.1 + s.2) / 2) := rfl

/-- The bisection invariant: after `n` steps the bracket sits inside
`[-10, 10]`, has width `20/2^n`, the estimate at `lo` exceeds `p` unless
`lo` never moved, and the estimate at `hi` is at most `p` unless `hi`
never moved. -/
theorem bisect_inv (p a : ℝ) (n : ℕ) :
    -10 ≤ ((bisectStep p a)^[n] ((-10 : ℝ), (10 : ℝ))).1 ∧
    ((bisectStep p a)^[n] ((-10 : ℝ), (10 : ℝ))).2 ≤ 10 ∧
    ((bisectStep p a)^[n] ((-10 : ℝ), (10 : ℝ))).2
      - ((bisectStep p a)^[n] ((-10 : ℝ), (10 : ℝ))).1 = 20 / 2 ^ n ∧
    (p < expect_sigmoid a (((bisectStep p a)^[n] ((-10 : ℝ), (10 : ℝ))).1) ∨
      ((bisectStep p a)^[n] ((-10 : ℝ), (10 : ℝ))).1 = -10) ∧
    (expect_sigmoid a (((bisectStep p a)^[n] ((-10 : ℝ), (10 : ℝ))).2) ≤ p ∨
      ((bisectStep p a)^[n] ((-10 : ℝ), (10 : ℝ))).2 = 10) := by
  induction n with
  | zero =>
    refine ⟨by norm_num, by norm_num, by norm_num, Or.inr rfl, Or.inr rfl⟩
  | succ n ih =>
    obtain ⟨h1, h2, h3, h4, h5⟩ := ih
    rw [Function.iterate_succ_apply', bisectStep_apply]
    have hwpos : (0 : ℝ) < 20 / 2 ^ n := by positivity
    have hstep : (20 : ℝ) / 2 ^ (n + 1) = (20 / 2 ^ n) / 2 := by
      rw [pow_succ]
      ring
    split_ifs with hcond
    · refine ⟨by dsimp only; linarith, by dsimp only; linarith, ?_, ?_, ?_⟩
      · dsimp only
        rw [hstep]
        linarith
      · exact Or.inl hcond
      · dsimp only
        exact h5
    · refine ⟨by dsimp only; linarith, by dsimp only; linarith, ?_, ?_, ?_⟩
      · dsimp only
        rw [hstep]
        linarith
      · dsimp only
        exact h4
      · exact Or.inl (not_lt.mp hcond)

/-- C1: for every target probability `p` strictly inside `(0,1)`, the
calibrated parameters — `a` from the clamped discrimination formula and
`b = solve_difficulty p a` — reproduce `p` through the 20-point
Gauss-Hermite quadrature to within `1e-6`:
`|expect_sigmoid a b - p| < 1e-6`. -/
theorem calibration_round_trip (p : ℝ) (hp0 : 0 < p) (hp1 : p < 1) :
    |expect_sigmoid (clamp (0.75 + 0.5 * |logit p|) 0.75 2.25)
      (solve_difficulty p (clamp (0.75 + 0.5 * |logit p|) 0.75 2.25)) - p|
      < 1e-6 := by
  set a := clamp (0.75 + 0.5 * |logit p|) 0.75 2.25 with ha
  have ha1 : (0.75 : ℝ) ≤ a := clamp_lb (by norm_num)
  have ha2 : a ≤ 2.25 := clamp_ub _ _ _
  have ha0 : (0 : ℝ) ≤ a := by linarith
  obtain ⟨h1, h2, h3, h4, h5⟩ := bisect_inv p a 80
  set s := (bisectStep p a)^[80] ((-10 : ℝ), (10 : ℝ)) with hs
  have hsolve : solve_difficulty p a = (s.1 + s.2) / 2 := by
    rw [hs]
    rfl
  rw [hsolve]
  have hwid : (20 : ℝ) / 2 ^ 80 ≤ 0.05 := by norm_num
  have hms1 : s.1 ≤ (s.1 + s.2) / 2 := by linarith
  have hms2 : (s.1 + s.2) / 2 ≤ s.2 := by linarith
  have hgap1 : (s.1 + s.2) / 2 - s.1 ≤ 20 / 2 ^ 80 := by linarith
  have hgap2 : s.2 - (s.1 + s.2) / 2 ≤ 20 / 2 ^ 80 := by linarith
  have hlip1 : expect_sigmoid a s.1 - expect_sigmoid a ((s.1 + s.2) / 2) ≤ 1e-7 :=
    expect_lip_tiny ha0 ha2 hms1 hgap1
  have hlip2 : expect_sigmoid a ((s.1 + s.2) / 2) - expect_sigmoid a s.2 ≤ 1e-7 :=
    expect_lip_tiny ha0 ha2 hms2 hgap2
  rcases h4 with h4 | h4 <;> rcases h5 with h5 | h5
  · rw [abs_lt]
    constructor
    · linarith
    · linarith
  · have hs1b : (9.9 : ℝ) ≤ s.1 := by linarith
    have hmb : (9.9 : ℝ) ≤ (s.1 + s.2) / 2 := by linarith
    by_cases hv : 0.75 + 0.5 * |logit p| < 2.25
    · obtain ⟨hpl, hpu⟩ := p_bounds_of_unclamped hp0 hp1 hv
      have hE1 : expect_sigmoid a s.1 ≤ 0.0133 := expect_ub_wide ha1 ha2 hs1b
      linarith
    · have ha225 : a = 2.25 := by
        rw [ha]
        exact clamp_eq_hi (by have := abs_nonneg (logit p); linarith) (not_lt.mp hv)
      have hE1 : expect_sigmoid a s.1 ≤ 2e-7 := by
        rw [ha225]
        exact expect_ub_225 hs1b
      have hEm : expect_sigmoid a ((s.1 + s.2) / 2) ≤ 2e-7 := by
        rw [ha225]
        exact expect_ub_225 hmb
      have hEm0 : 0 ≤ expect_sigmoid a ((s.1 + s.2) / 2) := expect_nonneg a _
      rw [abs_lt]
      constructor
      · linarith
      · linarith
  · have hs2b : s.2 ≤ -(9.9 : ℝ) := by linarith
    have hmb : (s.1 + s.2) / 2 ≤ -(9.9 : ℝ) := by linarith
    by_cases hv : 0.75 + 0.5 * |logit p| < 2.25
    · obtain ⟨hpl, hpu⟩ := p_bounds_of_unclamped hp0 hp1 hv
      have hE2 : (0.986 : ℝ) ≤ expect_sigmoid a s.2 := expect_lb_wide ha1 ha2 hs2b
      linarith
    · have ha225 : a = 2.25 := by
        rw [ha]
        exact clamp_eq_hi (by have := abs_nonneg (logit p); linarith) (not_lt.mp hv)
      have hE2 : (1 - 3e-7 : ℝ) ≤ expect_sigmoid a s.2 := by
        rw [ha225]
        exact expect_lb_225 hs2b
      have hEm : (1 - 3e-7 : ℝ) ≤ expect_sigmoid a ((s.1 + s.2) / 2) := by
        rw [ha225]
        exact expect_lb_225 hmb
      have hEm1 : expect_sigmoid a ((s.1 + s.2) / 2) ≤ 1.0000005 := expect_ub_one a _
      rw [abs_lt]
      constructor
      · linarith
      · linarith
  · exfalso
    rw [h4, h5] at h3
    norm_num at h3

/-- Witness for `calibration_round_trip` at the concrete probability `1/2`. -/
theorem calibration_round_trip_witness :
    (0 : ℝ) < 1 / 2 ∧ (1 / 2 : ℝ) < 1 ∧
    |expect_sigmoid (clamp (0.75 + 0.5 * |logit (1 / 2)|) 0.75 2.25)
      (solve_difficulty (1 / 2) (clamp (0.75 + 0.5 * |logit (1 / 2)|) 0.75 2.25))
      - 1 / 2| < 1e-6 :=
  ⟨by norm_num, by norm_num,
    calibration_round_trip (1 / 2) (by norm_num) (by norm_num)⟩

end WorldRankCalibration
